import Mathlib

/-!
# Column reconciliation, pagination, rename and reorder in `static/script.js`

A shallow embedding of the browser-side state machine of `static/script.js`:
the globals (`currentTableData`, `currentColumnOrder`, `headerMap`,
`currentPage`, `rowsPerPage`, `totalRows`, `dragTargetTh`) and the part of the
DOM the handlers read back (`#tableHeaderRow`, the table body, `#pageInfo`,
the two page buttons) form one explicit `State`.  Every handler is a function
on that state; the results of the `await fetchData(...)` calls are arguments,
and the requests and notifications a handler issues are returned as a list of
`Effect`s.
-/

namespace DemoFront

/-! ## Data model -/

/-- A scalar cell value of a fetched row (string, number or `null`).  Numbers
are modelled as integers. -/
inductive Value where
  | str (s : String)
  | num (n : Int)
  | null
deriving DecidableEq, Repr

/-- A fetched row: a JavaScript object, kept as its own properties in
`Object.keys` order. -/
abbrev Row := List (String × Value)

/-- `Object.keys(row)`. -/
def objectKeys (row : Row) : List String := row.map Prod.fst

/-- The row's own property `key`, when it has one. -/
def rowGet (row : Row) (key : String) : Option Value :=
  match row.find? (fun kv => kv.1 == key) with
  | some kv => some kv.2
  | none => none

/-- One element of the `inputs` array returned by `/inputs-list`, and of the
body posted to `/bulk-inputs`.  `name` is a string, as in the backend schema;
`none` stands for `null` or an absent field. -/
structure ColumnDescriptor where
  name : String
  column : Option Int
  change_order : Option Int
deriving DecidableEq, Repr

/-- The global `headerMap`: a JavaScript `Map` from original column name to
display name, kept as its entries in insertion order. -/
abbrev HeaderMap := List (String × String)

/-- `headerMap.get(key)`; `none` stands for `undefined`. -/
def mapGet (m : HeaderMap) (key : String) : Option String :=
  match m with
  | [] => none
  | (k, v) :: rest => if k = key then some v else mapGet rest key

/-- `headerMap.has(key)`. -/
def mapHas (m : HeaderMap) (key : String) : Bool :=
  match m with
  | [] => false
  | (k, _) :: rest => if k = key then true else mapHas rest key

/-- `headerMap.set(key, value)`: an existing key keeps its place and takes the
new value, a new key is appended. -/
def mapSet (m : HeaderMap) (key value : String) : HeaderMap :=
  match m with
  | [] => [(key, value)]
  | (k, v) :: rest => if k = key then (k, value) :: rest else (k, v) :: mapSet rest key value

/-- `headerMap.get(name) || name`: the display name shown for a column. -/
def displayName (m : HeaderMap) (name : String) : String :=
  match mapGet m name with
  | some v => if v = "" then name else v
  | none => name

/-- A header cell `<th>` of `#tableHeaderRow` together with its `<input>`.
`nodeId` stands for the identity of the DOM node: `populateTable` creates
fresh nodes on every render. -/
structure Th where
  nodeId : Nat
  originalName : String
  columnIndex : Nat
  value : String
  readOnly : Bool
deriving DecidableEq, Repr

/-- What the table body shows: a single message row, or the data rows as
lists of cell texts. -/
inductive TableBody where
  | message (text : String)
  | rows (cells : List (List String))
deriving DecidableEq, Repr

/-- The globals of the script and the DOM state its handlers read back. -/
structure State where
  currentTableData : List Row
  currentColumnOrder : List String
  headerMap : HeaderMap
  currentPage : Nat
  rowsPerPage : Nat
  totalRows : Nat
  dragTargetTh : Option Th
  headerRow : List Th
  tableBody : TableBody
  pageInfoText : String
  prevPageBtnDisabled : Bool
  nextPageBtnDisabled : Bool
  nextNodeId : Nat
deriving DecidableEq, Repr

/-- The state when the script has been evaluated and no handler has run. -/
def initialState : State where
  currentTableData := []
  currentColumnOrder := []
  headerMap := []
  currentPage := 1
  rowsPerPage := 10
  totalRows := 0
  dragTargetTh := none
  headerRow := []
  tableBody := TableBody.rows []
  pageInfoText := ""
  prevPageBtnDisabled := false
  nextPageBtnDisabled := false
  nextNodeId := 0

/-- What a handler does beyond the `State`: a toast, a console message, the
`POST /bulk-inputs` request, the `DELETE /inputs-clear` request, or the
replacement of the whole content of `#dataTable` by an error row, which removes
`#tableHeaderRow` from the document. -/
inductive Effect where
  | notification (message : String) (type : String)
  | consoleError (message : String)
  | postBulkInputs (body : List ColumnDescriptor)
  | deleteInputsClear
  | dataTableReplaced (message : String)
deriving DecidableEq, Repr

/-- The value `fetchData` resolves to: `{ error: message }` or the data. -/
inductive FetchResult (α : Type) where
  | error (message : String)
  | ok (data : α)
deriving DecidableEq, Repr

/-! ## Pagination -/

/-- `Math.ceil(totalRows / rowsPerPage)` for a row count and a page size
`rowsPerPage ≥ 1`: on such integers the floating-point quotient rounds to the
ceiling of the exact quotient, which `totalPages_eq_ceil` shows this to be. -/
def totalPages (totalRows rowsPerPage : Nat) : Nat :=
  (totalRows + rowsPerPage - 1) / rowsPerPage

/-- `renderPaginationControls()`. -/
def renderPaginationControls (st : State) : State :=
  let pages := totalPages st.totalRows st.rowsPerPage
  { st with
    pageInfoText := "Page " ++ toString st.currentPage ++ " of " ++ toString pages
      ++ " (" ++ toString st.totalRows ++ " rows)"
    prevPageBtnDisabled := st.currentPage == 1
    nextPageBtnDisabled := st.currentPage == pages || pages == 0 }

/-- `data.slice(start, end)` for non-negative integer arguments. -/
def jsSlice {α : Type} (data : List α) (start stop : Nat) : List α :=
  let k := min start data.length
  let final := min stop data.length
  (data.drop k).take (final - k)

/-- The `paginatedData` of `populateTable` and `handleDragOver`. -/
def paginatedData (st : State) (data : List Row) : List Row :=
  let startIndex := (st.currentPage - 1) * st.rowsPerPage
  let endIndex := min (startIndex + st.rowsPerPage) st.totalRows
  jsSlice data startIndex endIndex

/-! ## Rendering -/

/-- The text a `<td>` shows after `td.textContent = v`. -/
def textContent (v : Value) : String :=
  match v with
  | Value.str s => s
  | Value.num n => toString n
  | Value.null => ""

/-- The property names every row inherits from `Object.prototype`. -/
def objectPrototypeMembers : List String :=
  ["constructor", "__defineGetter__", "__defineSetter__", "hasOwnProperty",
   "__lookupGetter__", "__lookupSetter__", "isPrototypeOf", "propertyIsEnumerable",
   "toString", "valueOf", "__proto__", "toLocaleString"]

/-- The text a `<td>` shows for the inherited member `name` of `Object.prototype`
(as V8 prints a native function; `__proto__` is the prototype object). -/
def inheritedText (name : String) : String :=
  if name = "__proto__" then "[object Object]"
  else if name = "constructor" then "function Object() \x7b [native code] \x7d"
  else "function " ++ name ++ "() \x7b [native code] \x7d"

/-- The cell text `rowData[name] !== undefined ? rowData[name] : ''`: the row's
own value, else the member inherited from `Object.prototype` under that name,
else the empty string. -/
def cellText (rowData : Row) (originalColName : String) : String :=
  match rowGet rowData originalColName with
  | some v => textContent v
  | none =>
    if objectPrototypeMembers.contains originalColName then inheritedText originalColName
    else ""

/-- The body rows built from `paginatedData` under a column order. -/
def renderRows (order : List String) (rows : List Row) : List (List String) :=
  rows.map (fun rowData => order.map (cellText rowData))

/-- The header cells `populateTable` creates, one per column, with fresh node
identities starting at `firstId`. -/
def createHeaders (m : HeaderMap) (firstId : Nat) (order : List String) : List Th :=
  order.enum.map (fun p =>
    { nodeId := firstId + p.1, originalName := p.2, columnIndex := p.1,
      value := displayName m p.2, readOnly := true })

/-- The loop of `populateTable` that adds an identity entry for every column
the map does not have yet. -/
def ensureHeaderMap (m : HeaderMap) (order : List String) : HeaderMap :=
  order.foldl (fun acc colName => if mapHas acc colName then acc else mapSet acc colName colName) m

/-- `populateTable(data, columnOrder)`; `columnOrder = none` is the default
`null`. -/
def populateTable (st : State) (data : List Row) (columnOrder : Option (List String)) : State :=
  match data with
  | [] =>
    renderPaginationControls
      { st with headerRow := [], tableBody := TableBody.message "No data available." }
  | first :: _ =>
    let requested := match columnOrder with
      | some order => order
      | none => objectKeys first
    let availableColumnsInFirstRow := objectKeys first
    let actualColumnOrder := requested.filter (fun col => availableColumnsInFirstRow.contains col)
    let headerMap := ensureHeaderMap st.headerMap actualColumnOrder
    let st1 := { st with
      currentColumnOrder := actualColumnOrder
      headerMap := headerMap
      headerRow := createHeaders headerMap st.nextNodeId actualColumnOrder
      nextNodeId := st.nextNodeId + actualColumnOrder.length }
    renderPaginationControls
      { st1 with tableBody := TableBody.rows (renderRows actualColumnOrder (paginatedData st1 data)) }

/-! ## Reconciliation -/

/-- The comparator `(a.change_order ?? Infinity) - (b.change_order ?? Infinity)`,
as the sign `sort` sees: a `NaN` result (both absent) counts as `0`. -/
def compareChangeOrder (a b : ColumnDescriptor) : Int :=
  match a.change_order, b.change_order with
  | some x, some y => x - y
  | some _, none => -1
  | none, some _ => 1
  | none, none => 0

/-- Insertion of `a` in front of the first element it does not sort after. -/
def sortedInsert (a : ColumnDescriptor) : List ColumnDescriptor → List ColumnDescriptor
  | [] => [a]
  | b :: rest => if compareChangeOrder a b ≤ 0 then a :: b :: rest else b :: sortedInsert a rest

/-- `[...backendInputs].sort(comparator)`: `Array.prototype.sort` is stable, so
for this comparator its result is the one a stable insertion sort computes. -/
def sortInputs : List ColumnDescriptor → List ColumnDescriptor
  | [] => []
  | a :: rest => sortedInsert a (sortInputs rest)

/-- `keys.forEach(k => headerMap.set(k, k))`. -/
def setIdentity (m : HeaderMap) (keys : List String) : HeaderMap :=
  keys.foldl (fun acc k => mapSet acc k k) m

/-- `backendInputs.forEach(input => { if (input.name) headerMap.set(input.name, input.name) })`. -/
def seedFromBackend (m : HeaderMap) (backendInputs : List ColumnDescriptor) : HeaderMap :=
  backendInputs.foldl (fun acc input => if input.name ≠ "" then mapSet acc input.name input.name else acc) m

/-- `Object.keys(rows[0]).forEach(key => { if (!headerMap.has(key)) headerMap.set(key, key) })`,
guarded by `currentTableData.length > 0`. -/
def coverDataKeys (m : HeaderMap) (data : List Row) : HeaderMap :=
  match data with
  | [] => m
  | first :: _ => ensureHeaderMap m (objectKeys first)

/-- The descriptors posted when the backend has none: one per inferred column. -/
def inferredInputs (order : List String) : List ColumnDescriptor :=
  order.enum.map (fun p => { name := p.2, column := none, change_order := some (p.1 : Int) })

/-- `loadInitialDataAndHeaders()`.  `dataResult` and `inputsResult` are what the
two `fetchData` calls resolve to (`inputsResult.inputs || []` is the payload of
`ok`), `updateResult` what the `POST /bulk-inputs` resolves to when it is
issued.  When the data fetch fails the globals stay as they are and the content
of `#dataTable` is replaced by the error row (the effect `dataTableReplaced`):
`#tableHeaderRow` is then gone from the document and a later `populateTable`
throws, so the page is not followed beyond that branch (`Reachable` has no
step for it). -/
def loadInitialDataAndHeaders (st : State) (dataResult : FetchResult (List Row))
    (inputsResult : FetchResult (List ColumnDescriptor)) (updateResult : FetchResult Unit) :
    State × List Effect :=
  match dataResult with
  | FetchResult.error message =>
    ({ st with headerRow := [], tableBody := TableBody.message ("Error loading data: " ++ message) },
      [Effect.dataTableReplaced ("Error loading data: " ++ message)])
  | FetchResult.ok data =>
    let st1 := { st with currentTableData := data, totalRows := data.length, currentPage := 1 }
    match inputsResult with
    | FetchResult.error _ =>
      match data with
      | first :: _ =>
        let order := objectKeys first
        let st2 := { st1 with currentColumnOrder := order, headerMap := setIdentity st1.headerMap order }
        (populateTable st2 st2.currentTableData (some st2.currentColumnOrder),
          [Effect.notification
            "Failed to fetch backend inputs. Displaying data with default column order." "info"])
      | [] => (populateTable st1 st1.currentTableData (some st1.currentColumnOrder), [])
    | FetchResult.ok backendInputs =>
      let sortedInputs := sortInputs backendInputs
      let finish (st2 : State) (effects : List Effect) : State × List Effect :=
        let st3 := { st2 with headerMap := coverDataKeys (seedFromBackend st2.headerMap backendInputs) data }
        (populateTable st3 st3.currentTableData (some st3.currentColumnOrder), effects)
      match sortedInputs, data with
      | [], first :: _ =>
        let order := objectKeys first
        let request := Effect.postBulkInputs (inferredInputs order)
        let outcome := match updateResult with
          | FetchResult.error message =>
            [Effect.consoleError ("Failed to initialize backend inputs: " ++ message),
             Effect.notification "Failed to initialize backend inputs with inferred data." "error"]
          | FetchResult.ok _ =>
            [Effect.notification "Backend inputs initialized from fetched data." "success"]
        finish { st1 with currentColumnOrder := order } (request :: outcome)
      | _, _ =>
        finish { st1 with currentColumnOrder := sortedInputs.map (fun input => input.name) } []

/-! ## Page navigation -/

/-- `nextPage()`. -/
def nextPage (st : State) : State :=
  let pages := totalPages st.totalRows st.rowsPerPage
  if st.currentPage < pages then
    let st1 := { st with currentPage := st.currentPage + 1 }
    populateTable st1 st1.currentTableData (some st1.currentColumnOrder)
  else st

/-- `prevPage()`. -/
def prevPage (st : State) : State :=
  if st.currentPage > 1 then
    let st1 := { st with currentPage := st.currentPage - 1 }
    populateTable st1 st1.currentTableData (some st1.currentColumnOrder)
  else st

/-- `changeRowsPerPage()`; `selected` is the parsed value of the `#rowsPerPage`
select. -/
def changeRowsPerPage (st : State) (selected : Nat) : State :=
  let st1 := { st with rowsPerPage := selected, currentPage := 1 }
  populateTable st1 st1.currentTableData (some st1.currentColumnOrder)

/-! ## Renaming a column -/

/-- The characters `String.prototype.trim` strips: ECMAScript white space and
line terminators. -/
def isTrimChar (c : Char) : Bool :=
  let n := c.toNat
  n == 0x09 || n == 0x0A || n == 0x0B || n == 0x0C || n == 0x0D || n == 0x20 || n == 0xA0
    || n == 0x1680 || (0x2000 ≤ n && n ≤ 0x200A) || n == 0x2028 || n == 0x2029
    || n == 0x202F || n == 0x205F || n == 0x3000 || n == 0xFEFF

/-- `s.trim()`. -/
def jsTrim (s : String) : String :=
  String.mk ((s.data.dropWhile isTrimChar).reverse.dropWhile isTrimChar).reverse

/-- The header cell with the given node identity, if it is in the row. -/
def findTh (headerRow : List Th) (nodeId : Nat) : Option Th :=
  headerRow.find? (fun th => th.nodeId == nodeId)

/-- A change applied to the one header cell with the given node identity. -/
def updateTh (headerRow : List Th) (nodeId : Nat) (f : Th → Th) : List Th :=
  headerRow.map (fun th => if th.nodeId == nodeId then f th else th)

/-- `handleDblClick` on the input of the header cell `target`. -/
def handleDblClick (st : State) (target : Nat) : State :=
  { st with headerRow := updateTh st.headerRow target (fun th => { th with readOnly := false }) }

/-- The user typing `text` into the input of the header cell `target` (the
browser changes `input.value` only while the input is not read-only). -/
def typeText (st : State) (target : Nat) (text : String) : State :=
  { st with headerRow :=
      updateTh st.headerRow target (fun th => if th.readOnly then th else { th with value := text }) }

/-- `handleBlur` on the input of the header cell `target`: the commit of a
rename. -/
def handleBlur (st : State) (target : Nat) : State × List Effect :=
  match findTh st.headerRow target with
  | none => (st, [])
  | some th =>
    let newDisplayName := jsTrim th.value
    let originalName := th.originalName
    if mapGet st.headerMap originalName ≠ some newDisplayName ∧ newDisplayName ≠ "" then
      ({ st with
          headerRow := updateTh st.headerRow target (fun c => { c with readOnly := true })
          headerMap := mapSet st.headerMap originalName newDisplayName },
        [Effect.notification
          ("Column '" ++ originalName ++ "' display name changed to '" ++ newDisplayName
            ++ "'. Click 'Save Column Changes to Backend' to persist.") "info"])
    else if newDisplayName = "" then
      ({ st with
          headerRow := updateTh st.headerRow target (fun c =>
            { c with readOnly := true, value := displayName st.headerMap originalName }) },
        [Effect.notification "Column name cannot be empty. Reverted to previous name." "warning"])
    else
      ({ st with headerRow := updateTh st.headerRow target (fun c => { c with readOnly := true }) }, [])

/-! ## Reordering columns by drag and drop -/

/-- `Array.from(headerRow.children).indexOf(node)`, `-1` when absent. -/
def indexOfNode (children : List Th) (node : Th) : Int :=
  match children.findIdx? (fun c => c.nodeId == node.nodeId) with
  | some i => (i : Int)
  | none => -1

/-- `node.nextSibling` within the header row; `none` stands for `null`. -/
def nextSibling (children : List Th) (node : Th) : Option Th :=
  match children.findIdx? (fun c => c.nodeId == node.nodeId) with
  | some i => children.get? (i + 1)
  | none => none

/-- `headerRow.insertBefore(node, ref)`: `node` leaves its old place and is put
in front of `ref`, or at the end when `ref` is `null`. -/
def insertBefore (children : List Th) (node : Th) (ref : Option Th) : List Th :=
  let rest := children.filter (fun c => c.nodeId != node.nodeId)
  match ref with
  | none => rest ++ [node]
  | some r =>
    match rest.findIdx? (fun c => c.nodeId == r.nodeId) with
    | some i => rest.take i ++ node :: rest.drop i
    | none => rest ++ [node]

/-- `updateColumnOrderFromDOM()`. -/
def updateColumnOrderFromDOM (st : State) : State :=
  { st with
    currentColumnOrder := st.headerRow.map (fun th => th.originalName)
    headerRow := st.headerRow.enum.map (fun p => { p.2 with columnIndex := p.1 }) }

/-- `handleDragStart(e)`; `target` is `e.target.closest('th')`. -/
def handleDragStart (st : State) (target : Option Nat) : State :=
  match target with
  | none => st
  | some nodeId =>
    match findTh st.headerRow nodeId with
    | some th => { st with dragTargetTh := some th }
    | none => st

/-- The dragged node as it is now: the cell of the row with its identity, or
the remembered node when it is no longer in the row. -/
def liveNode (headerRow : List Th) (node : Th) : Th :=
  match findTh headerRow node.nodeId with
  | some th => th
  | none => node

/-- `handleDragOver(e)`; `target` is `e.target.closest('th')`. -/
def handleDragOver (st : State) (target : Option Nat) : State :=
  match st.dragTargetTh, target.bind (findTh st.headerRow) with
  | some drag, some targetTh =>
    if targetTh.nodeId ≠ drag.nodeId then
      let headerChildren := st.headerRow
      let dragIndex := indexOfNode headerChildren drag
      let dropIndex := indexOfNode headerChildren targetTh
      let moved :=
        if dragIndex < dropIndex then
          insertBefore headerChildren (liveNode headerChildren drag) (nextSibling headerChildren targetTh)
        else
          insertBefore headerChildren (liveNode headerChildren drag) (some targetTh)
      let st1 := updateColumnOrderFromDOM { st with headerRow := moved }
      { st1 with
        tableBody := TableBody.rows (renderRows st1.currentColumnOrder (paginatedData st1 st1.currentTableData)) }
    else st
  | _, _ => st

/-- `handleDrop(e)`. -/
def handleDrop (st : State) : State × List Effect :=
  match st.dragTargetTh with
  | some _ =>
    ({ st with dragTargetTh := none },
      [Effect.notification "Columns reordered! Click 'Save Column Changes to Backend' to persist." "info"])
  | none => (st, [])

/-- `handleDragEnd(e)`. -/
def handleDragEnd (st : State) : State :=
  let st1 := { st with dragTargetTh := none }
  populateTable st1 st1.currentTableData (some st1.currentColumnOrder)

/-! ## Saving and clearing the column configuration -/

/-- The `inputsToUpdate` of `updateBackendInputs`: one descriptor per column
of `currentColumnOrder`, named by the display name, ranked by position. -/
def inputsToUpdate (st : State) : List ColumnDescriptor :=
  st.currentColumnOrder.enum.map (fun p =>
    { name := displayName st.headerMap p.2, column := none, change_order := some (p.1 : Int) })

/-- `updateBackendInputs()`.  `result` is what the `POST /bulk-inputs` resolves
to; the other three results are those of the reload `refreshDataTable()` starts
after a successful save. -/
def updateBackendInputs (st : State) (result : FetchResult Unit)
    (dataResult : FetchResult (List Row)) (inputsResult : FetchResult (List ColumnDescriptor))
    (updateResult : FetchResult Unit) : State × List Effect :=
  let request := Effect.postBulkInputs (inputsToUpdate st)
  match result with
  | FetchResult.error _ => (st, [request])
  | FetchResult.ok _ =>
    let reloaded := loadInitialDataAndHeaders st dataResult inputsResult updateResult
    (reloaded.1,
      request :: Effect.notification "Backend inputs updated successfully!" "success" :: reloaded.2)

/-- `clearAllInputs()`.  `result` is what the `DELETE /inputs-clear` resolves to;
the other three results are those of the reload that follows a successful
clear. -/
def clearAllInputs (st : State) (result : FetchResult Unit)
    (dataResult : FetchResult (List Row)) (inputsResult : FetchResult (List ColumnDescriptor))
    (updateResult : FetchResult Unit) : State × List Effect :=
  match result with
  | FetchResult.error _ => (st, [Effect.deleteInputsClear])
  | FetchResult.ok _ =>
    let cleared := { st with headerMap := [], currentColumnOrder := [] }
    let reloaded := loadInitialDataAndHeaders cleared dataResult inputsResult updateResult
    (reloaded.1,
      Effect.deleteInputsClear
        :: Effect.notification "All backend inputs cleared successfully!" "success" :: reloaded.2)

/-! ## Auxiliary definitions for the statements -/

/-- The column order `loadInitialDataAndHeaders` hands to `populateTable` when
the first row is `first`: the keys of `first` when the backend fetch failed or
returned no descriptor, the sorted descriptor names otherwise. -/
def requestedOrder (inputsResult : FetchResult (List ColumnDescriptor)) (first : Row) : List String :=
  match inputsResult with
  | FetchResult.error _ => objectKeys first
  | FetchResult.ok backendInputs =>
    match sortInputs backendInputs with
    | [] => objectKeys first
    | d :: ds => (d :: ds).map (fun input => input.name)

/-- The header map `loadInitialDataAndHeaders` hands to `populateTable`. -/
def reconciledMap (m : HeaderMap) (inputsResult : FetchResult (List ColumnDescriptor))
    (data : List Row) : HeaderMap :=
  match inputsResult with
  | FetchResult.error _ =>
    match data with
    | first :: _ => setIdentity m (objectKeys first)
    | [] => m
  | FetchResult.ok backendInputs => coverDataKeys (seedFromBackend m backendInputs) data

/-- The filter of `populateTable`: the columns of `order` that are keys of
`first`. -/
def activeColumns (first : Row) (order : List String) : List String :=
  order.filter (fun col => (objectKeys first).contains col)

/-- Following the spec's words for a `dragOver`: the source column is removed
and reinserted immediately after the target when the source's old index is less
than the target's index, immediately before the target otherwise.  Columns are
given by their positions in `order`. -/
def reorderSpec (order : List String) (source target : Nat) : List String :=
  match order[source]? with
  | none => order
  | some name =>
    let removed := order.eraseIdx source
    let targetNow := if source < target then target - 1 else target
    if source < target then removed.insertIdx (targetNow + 1) name
    else removed.insertIdx targetNow name

/-- A row set with the four columns `a`, `b`, `c`, `d`. -/
def abcdRows : List Row :=
  [[("a", Value.num 1), ("b", Value.num 2), ("c", Value.num 3), ("d", Value.num 4)]]

/-- The state after loading `abcdRows` with the backend unreachable: the
column order is `[a, b, c, d]`. -/
def abcdState : State :=
  (loadInitialDataAndHeaders initialState (FetchResult.ok abcdRows)
    (FetchResult.error "Failed to fetch") (FetchResult.ok ())).1

/-- Following the spec's words: `rows[(page-1)*pageSize : min(page*pageSize, len(rows))]`,
empty if out of range. -/
def sliceSpec (rows : List Row) (page pageSize : Nat) : List Row :=
  (rows.take (min (page * pageSize) rows.length)).drop ((page - 1) * pageSize)

/-- The pagination invariant `1 ≤ page ≤ max(1, ceil(totalRows / pageSize))`. -/
def paginationInv (st : State) : Prop :=
  1 ≤ st.currentPage ∧ st.currentPage ≤ max 1 (totalPages st.totalRows st.rowsPerPage)

instance (st : State) : Decidable (paginationInv st) := by
  unfold paginationInv
  infer_instance

/-- Twenty-three rows with the single column `id`. -/
def rows23 : List Row :=
  (List.replicate 23 ()).enum.map (fun p => [("id", Value.num (p.1 : Int))])

/-- The state showing the third page of `rows23` at ten rows per page. -/
def page3State : State :=
  nextPage (nextPage (loadInitialDataAndHeaders initialState (FetchResult.ok rows23)
    (FetchResult.error "Failed to fetch") (FetchResult.ok ())).1)

/-- The two rows of the end-to-end scenarios. -/
def scenarioRows : List Row :=
  [[("id", Value.num 1), ("name", Value.str "X")], [("id", Value.num 2), ("name", Value.str "Y")]]

/-- The backend descriptors of the case-mismatch scenario. -/
def mismatchInputs : List ColumnDescriptor :=
  [{ name := "Name", column := none, change_order := some 1 },
   { name := "ID", column := none, change_order := some 0 }]

/-- A backend list that knows only the column `id`. -/
def idOnlyInputs : List ColumnDescriptor :=
  [{ name := "id", column := none, change_order := some 0 }]

/-- Following the spec's words: ranks ascend, and a null or absent
`change_order` ranks after every integer rank. -/
def rankLe (a b : Option Int) : Prop :=
  match a, b with
  | _, none => True
  | none, some _ => False
  | some x, some y => x ≤ y

/-- Six descriptors with two absent ranks and two equal integer ranks. -/
def mixedRankInputs : List ColumnDescriptor :=
  [{ name := "a", column := none, change_order := none },
   { name := "b", column := none, change_order := some 2 },
   { name := "c", column := none, change_order := none },
   { name := "d", column := none, change_order := some 1 },
   { name := "e", column := none, change_order := some 2 },
   { name := "f", column := none, change_order := some (-1) }]

/-- The state after loading `scenarioRows` with the backend unreachable: the
columns `id`, `name` under their own names. -/
def scenarioState : State :=
  (loadInitialDataAndHeaders initialState (FetchResult.ok scenarioRows)
    (FetchResult.error "Failed to fetch") (FetchResult.ok ())).1

/-- The state `scenarioState` after the user renamed the column `id` to
"Product ID": double click on the first header cell, typing, blur. -/
def renamedState : State :=
  (handleBlur (typeText (handleDblClick scenarioState 0) 0 "Product ID") 0).1

/-- The state `renamedState` after the save, with the backend returning
exactly the submitted descriptors to the reload. -/
def savedState : State :=
  (updateBackendInputs renamedState (FetchResult.ok ()) (FetchResult.ok scenarioRows)
    (FetchResult.ok (inputsToUpdate renamedState)) (FetchResult.ok ())).1

/-- A backend list that names the column `id` twice. -/
def duplicateInputs : List ColumnDescriptor :=
  [{ name := "id", column := none, change_order := some 0 },
   { name := "id", column := none, change_order := some 1 }]

/-- The state after loading `scenarioRows` against `mismatchInputs`: no column
is active. -/
def noColumnState : State :=
  (loadInitialDataAndHeaders initialState (FetchResult.ok scenarioRows)
    (FetchResult.ok mismatchInputs) (FetchResult.ok ())).1



/-- The states the page can reach with its table intact: the script's initial
state with the page size read from `#rowsPerPage`, followed by any sequence of
loads whose data fetch succeeds (whatever the backend answers), saves and
clears (with such a reload when they succeed), renames (double click, typing,
blur), reorders (drag start, drag over, drop, drag end) and page changes. -/
inductive Reachable : State → Prop where
  | start (selected : Nat) : Reachable { initialState with rowsPerPage := selected }
  | load (st : State) (data : List Row)
      (inputsResult : FetchResult (List ColumnDescriptor)) (updateResult : FetchResult Unit) :
      Reachable st →
      Reachable (loadInitialDataAndHeaders st (FetchResult.ok data) inputsResult updateResult).1
  | save (st : State) (result : FetchResult Unit) (data : List Row)
      (inputsResult : FetchResult (List ColumnDescriptor)) (updateResult : FetchResult Unit) :
      Reachable st →
      Reachable (updateBackendInputs st result (FetchResult.ok data) inputsResult
        updateResult).1
  | clear (st : State) (result : FetchResult Unit) (data : List Row)
      (inputsResult : FetchResult (List ColumnDescriptor)) (updateResult : FetchResult Unit) :
      Reachable st →
      Reachable (clearAllInputs st result (FetchResult.ok data) inputsResult updateResult).1
  | dblClick (st : State) (target : Nat) : Reachable st → Reachable (handleDblClick st target)
  | typing (st : State) (target : Nat) (text : String) :
      Reachable st → Reachable (typeText st target text)
  | blur (st : State) (target : Nat) : Reachable st → Reachable (handleBlur st target).1
  | dragStart (st : State) (target : Option Nat) :
      Reachable st → Reachable (handleDragStart st target)
  | dragOver (st : State) (target : Option Nat) :
      Reachable st → Reachable (handleDragOver st target)
  | drop (st : State) : Reachable st → Reachable (handleDrop st).1
  | dragEnd (st : State) : Reachable st → Reachable (handleDragEnd st)
  | next (st : State) : Reachable st → Reachable (nextPage st)
  | prev (st : State) : Reachable st → Reachable (prevPage st)
  | pageSize (st : State) (selected : Nat) :
      Reachable st → Reachable (changeRowsPerPage st selected)

/-- No column other than the one named by the empty string carries an empty
display name, so `headerMap.get(name) || name` is the entry when there is
one. -/
def labelsOk (m : HeaderMap) : Prop :=
  ∀ k, mapGet m k = some "" → k = ""

/-- What every reachable state satisfies: the header map has no empty label,
`totalRows` is the number of loaded rows, and the page number is at least 1. -/
def wellFormed (st : State) : Prop :=
  labelsOk st.headerMap ∧ st.totalRows = st.currentTableData.length ∧ 1 ≤ st.currentPage

/-- The state `renamedState` after the user has opened the header cell of the
renamed column `id` again and replaced its text by blanks. -/
def blankRenamedState : State :=
  typeText (handleDblClick renamedState 0) 0 "   "

/-- The state `abcdState` after a drag of the header cell `a` has started and
the table has been rendered again (here by a change of the page size) before
the next `dragover`: the remembered cell `a` is no longer in the header row. -/
def staleDragState : State :=
  changeRowsPerPage (handleDragStart abcdState (some 0)) 25

/-- The same situation, the table rendered again by a reload that completes
during the drag. -/
def staleDragAfterReloadState : State :=
  (loadInitialDataAndHeaders (handleDragStart abcdState (some 0)) (FetchResult.ok abcdRows)
    (FetchResult.error "Failed to fetch") (FetchResult.ok ())).1

/-- Two rows of which the second has no value for `name`. -/
def raggedRows : List Row :=
  [[("id", Value.num 1), ("name", Value.str "X")], [("id", Value.num 2)]]

/-- The state after loading `raggedRows` with the backend unreachable and
renaming the column `id` to "Product ID". -/
def raggedRenamedState : State :=
  (handleBlur (typeText (handleDblClick
    (loadInitialDataAndHeaders initialState (FetchResult.ok raggedRows)
      (FetchResult.error "Failed to fetch") (FetchResult.ok ())).1 0) 0 "Product ID") 0).1

/-- The state after a load that returned no row while the backend knows the
column `id`. -/
def noRowState : State :=
  (loadInitialDataAndHeaders initialState (FetchResult.ok []) (FetchResult.ok idOnlyInputs)
    (FetchResult.ok ())).1

/-! # Theorems -/

/-! ## The header map as a finite function -/

theorem mapGet_mapSet (m : HeaderMap) (key value k : String) :
    mapGet (mapSet m key value) k = if key = k then some value else mapGet m k := by
  induction m with
  | nil => simp [mapSet, mapGet]
  | cons p rest ih =>
    obtain ⟨a, b⟩ := p
    by_cases h : a = key
    · subst h
      by_cases h2 : a = k <;> simp [mapSet, mapGet, h2]
    · by_cases h2 : a = k
      · subst h2
        simp [mapSet, mapGet, h, Ne.symm h]
      · simp [mapSet, mapGet, h, h2, ih]

theorem mapHas_eq_isSome (m : HeaderMap) (k : String) : mapHas m k = (mapGet m k).isSome := by
  induction m with
  | nil => rfl
  | cons p rest ih =>
    obtain ⟨a, b⟩ := p
    by_cases h : a = k <;> simp [mapHas, mapGet, h, ih]

theorem mapSet_eq_self (m : HeaderMap) (k v : String) (h : mapGet m k = some v) :
    mapSet m k v = m := by
  induction m with
  | nil => simp [mapGet] at h
  | cons p rest ih =>
    obtain ⟨a, b⟩ := p
    by_cases h2 : a = k
    · simp [mapGet, h2] at h
      simp [mapSet, h2, h]
    · simp [mapGet, h2] at h
      simp [mapSet, h2, ih h]

theorem mapGet_setIdentity (keys : List String) (m : HeaderMap) (k : String) :
    mapGet (setIdentity m keys) k = if k ∈ keys then some k else mapGet m k := by
  induction keys generalizing m with
  | nil => simp [setIdentity]
  | cons a rest ih =>
    have hstep : setIdentity m (a :: rest) = setIdentity (mapSet m a a) rest := rfl
    rw [hstep, ih, mapGet_mapSet]
    by_cases h1 : k ∈ rest
    · simp [h1]
    · by_cases h2 : a = k
      · subst h2; simp
      · simp [h1, h2, Ne.symm h2]

theorem setIdentity_eq_self (keys : List String) (m : HeaderMap)
    (h : ∀ k ∈ keys, mapGet m k = some k) : setIdentity m keys = m := by
  induction keys with
  | nil => rfl
  | cons a rest ih =>
    have hstep : setIdentity m (a :: rest) = setIdentity (mapSet m a a) rest := rfl
    rw [hstep, mapSet_eq_self m a a (h a (List.mem_cons_self _ _))]
    exact ih (fun k hk => h k (List.mem_cons_of_mem _ hk))

theorem mapGet_seedFromBackend (b : List ColumnDescriptor) (m : HeaderMap) (k : String) :
    mapGet (seedFromBackend m b) k
      = if k ≠ "" ∧ k ∈ b.map (fun d => d.name) then some k else mapGet m k := by
  induction b generalizing m with
  | nil => simp [seedFromBackend]
  | cons d rest ih =>
    have hstep : seedFromBackend m (d :: rest)
        = seedFromBackend (if d.name ≠ "" then mapSet m d.name d.name else m) rest := rfl
    rw [hstep, ih]
    by_cases h1 : k ≠ "" ∧ k ∈ rest.map (fun d => d.name)
    · have : k ≠ "" ∧ k ∈ (d :: rest).map (fun d => d.name) :=
        ⟨h1.1, List.mem_cons_of_mem _ h1.2⟩
      rw [if_pos h1, if_pos this]
    · rw [if_neg h1]
      by_cases h2 : d.name = k
      · by_cases h3 : k = ""
        · have hd : ¬ (d.name ≠ "") := by simp [h2, h3]
          rw [if_neg hd]
          simp [h3]
        · have hd : d.name ≠ "" := by simpa [h2] using h3
          rw [if_pos hd, mapGet_mapSet, if_pos h2]
          simp [h3, h2]
      · have hk : ¬ (k ≠ "" ∧ k ∈ (d :: rest).map (fun d => d.name)) := by
          rintro ⟨hk1, hk2⟩
          rw [List.map_cons, List.mem_cons] at hk2
          rcases hk2 with hk2 | hk2
          · exact h2 hk2.symm
          · exact h1 ⟨hk1, hk2⟩
        rw [if_neg hk]
        by_cases hd : d.name ≠ ""
        · rw [if_pos hd, mapGet_mapSet, if_neg h2]
        · rw [if_neg hd]

theorem seedFromBackend_eq_self (b : List ColumnDescriptor) (m : HeaderMap)
    (h : ∀ d ∈ b, d.name ≠ "" → mapGet m d.name = some d.name) : seedFromBackend m b = m := by
  induction b with
  | nil => rfl
  | cons d rest ih =>
    have hstep : seedFromBackend m (d :: rest)
        = seedFromBackend (if d.name ≠ "" then mapSet m d.name d.name else m) rest := rfl
    have hd : (if d.name ≠ "" then mapSet m d.name d.name else m) = m := by
      by_cases hn : d.name ≠ ""
      · rw [if_pos hn, mapSet_eq_self m _ _ (h d (List.mem_cons_self _ _) hn)]
      · rw [if_neg hn]
    rw [hstep, hd]
    exact ih (fun e he => h e (List.mem_cons_of_mem _ he))

theorem mapGet_ensureHeaderMap (order : List String) (m : HeaderMap) (k : String) :
    mapGet (ensureHeaderMap m order) k
      = match mapGet m k with
        | some v => some v
        | none => if k ∈ order then some k else none := by
  induction order generalizing m with
  | nil => cases h : mapGet m k <;> simp [ensureHeaderMap, h]
  | cons a rest ih =>
    have hstep : ensureHeaderMap m (a :: rest)
        = ensureHeaderMap (if mapHas m a then m else mapSet m a a) rest := rfl
    rw [hstep, ih]
    by_cases ha : mapHas m a = true
    · rw [if_pos ha]
      cases hk : mapGet m k with
      | some v => rfl
      | none =>
        have hne : a ≠ k := by
          rintro rfl
          rw [mapHas_eq_isSome, hk] at ha
          simp at ha
        simp [hne, Ne.symm hne]
    · rw [if_neg ha, mapGet_mapSet]
      by_cases hak : a = k
      · subst hak
        rw [mapHas_eq_isSome] at ha
        cases hk : mapGet m a with
        | some v => simp [hk] at ha
        | none => simp
      · rw [if_neg hak]
        cases hk : mapGet m k with
        | some v => rfl
        | none => simp [hak, Ne.symm hak]

theorem ensureHeaderMap_eq_self (order : List String) (m : HeaderMap)
    (h : ∀ k ∈ order, mapHas m k = true) : ensureHeaderMap m order = m := by
  induction order with
  | nil => rfl
  | cons a rest ih =>
    have hstep : ensureHeaderMap m (a :: rest)
        = ensureHeaderMap (if mapHas m a then m else mapSet m a a) rest := rfl
    rw [hstep, if_pos (h a (List.mem_cons_self _ _))]
    exact ih (fun k hk => h k (List.mem_cons_of_mem _ hk))

/-! ## Reconciliation: `loadInitialDataAndHeaders` -/

theorem populateTable_cons_order (st : State) (first : Row) (rest : List Row) (order : List String) :
    (populateTable st (first :: rest) (some order)).currentColumnOrder = activeColumns first order :=
  rfl

theorem populateTable_cons_headerMap (st : State) (first : Row) (rest : List Row)
    (order : List String) :
    (populateTable st (first :: rest) (some order)).headerMap
      = ensureHeaderMap st.headerMap (activeColumns first order) :=
  rfl

theorem load_cons_order (st : State) (first : Row) (rest : List Row)
    (inputsResult : FetchResult (List ColumnDescriptor)) (updateResult : FetchResult Unit) :
    (loadInitialDataAndHeaders st (FetchResult.ok (first :: rest)) inputsResult
        updateResult).1.currentColumnOrder
      = activeColumns first (requestedOrder inputsResult first) := by
  cases inputsResult with
  | error msg => rfl
  | ok backendInputs =>
    simp only [loadInitialDataAndHeaders, requestedOrder]
    cases h : sortInputs backendInputs with
    | nil => rfl
    | cons d ds => rfl

theorem load_cons_headerMap (st : State) (first : Row) (rest : List Row)
    (inputsResult : FetchResult (List ColumnDescriptor)) (updateResult : FetchResult Unit) :
    (loadInitialDataAndHeaders st (FetchResult.ok (first :: rest)) inputsResult
        updateResult).1.headerMap
      = ensureHeaderMap (reconciledMap st.headerMap inputsResult (first :: rest))
          (activeColumns first (requestedOrder inputsResult first)) := by
  cases inputsResult with
  | error msg => rfl
  | ok backendInputs =>
    simp only [loadInitialDataAndHeaders, requestedOrder]
    cases h : sortInputs backendInputs with
    | nil => rfl
    | cons d ds => rfl

theorem load_nil_order (st : State) (inputsResult : FetchResult (List ColumnDescriptor))
    (updateResult : FetchResult Unit) :
    (loadInitialDataAndHeaders st (FetchResult.ok []) inputsResult updateResult).1.currentColumnOrder
      = match inputsResult with
        | FetchResult.error _ => st.currentColumnOrder
        | FetchResult.ok backendInputs => (sortInputs backendInputs).map (fun input => input.name) := by
  cases inputsResult with
  | error msg => rfl
  | ok backendInputs =>
    simp only [loadInitialDataAndHeaders]
    cases h : sortInputs backendInputs with
    | nil => rfl
    | cons d ds => rfl

theorem load_nil_headerMap (st : State) (inputsResult : FetchResult (List ColumnDescriptor))
    (updateResult : FetchResult Unit) :
    (loadInitialDataAndHeaders st (FetchResult.ok []) inputsResult updateResult).1.headerMap
      = reconciledMap st.headerMap inputsResult [] := by
  cases inputsResult with
  | error msg => rfl
  | ok backendInputs =>
    simp only [loadInitialDataAndHeaders]
    cases h : sortInputs backendInputs with
    | nil => rfl
    | cons d ds => rfl

theorem activeColumns_subset (first : Row) (order : List String) :
    activeColumns first order ⊆ objectKeys first := by
  intro k hk
  have := (List.mem_filter.mp hk).2
  simpa using this

/-- C1: after `loadInitialDataAndHeaders` has reconciled and `populateTable` has
rendered a row set with a first row, every name in `currentColumnOrder` is a
key of that first row, whatever the backend answered (a descriptor list or a
failed fetch) and whatever the state was before. -/
theorem load_columnOrder_subset_firstRow_keys (st : State) (first : Row) (rest : List Row)
    (inputsResult : FetchResult (List ColumnDescriptor)) (updateResult : FetchResult Unit) :
    (loadInitialDataAndHeaders st (FetchResult.ok (first :: rest)) inputsResult
        updateResult).1.currentColumnOrder ⊆ objectKeys first := by
  rw [load_cons_order]
  exact activeColumns_subset first _

theorem mapGet_ensureHeaderMap_of_some (order : List String) (m : HeaderMap) (k v : String)
    (h : mapGet m k = some v) : mapGet (ensureHeaderMap m order) k = some v := by
  rw [mapGet_ensureHeaderMap, h]

theorem mapHas_ensureHeaderMap_of_mem (order : List String) (m : HeaderMap) (k : String)
    (h : k ∈ order) : mapHas (ensureHeaderMap m order) k = true := by
  rw [mapHas_eq_isSome, mapGet_ensureHeaderMap]
  cases mapGet m k <;> simp [h]

theorem mapHas_ensureHeaderMap_of_has (order : List String) (m : HeaderMap) (k : String)
    (h : mapHas m k = true) : mapHas (ensureHeaderMap m order) k = true := by
  rw [mapHas_eq_isSome] at h ⊢
  rw [mapGet_ensureHeaderMap]
  cases hk : mapGet m k with
  | some v => rfl
  | none => simp [hk] at h

theorem reconciledMap_ensure_eq_self (m : HeaderMap)
    (inputsResult : FetchResult (List ColumnDescriptor)) (first : Row) (rest : List Row)
    (order : List String) :
    reconciledMap (ensureHeaderMap (reconciledMap m inputsResult (first :: rest)) order)
        inputsResult (first :: rest)
      = ensureHeaderMap (reconciledMap m inputsResult (first :: rest)) order := by
  cases inputsResult with
  | error msg =>
    show setIdentity _ (objectKeys first) = _
    apply setIdentity_eq_self
    intro k hk
    apply mapGet_ensureHeaderMap_of_some
    show mapGet (setIdentity m (objectKeys first)) k = some k
    rw [mapGet_setIdentity, if_pos hk]
  | ok backendInputs =>
    show ensureHeaderMap (seedFromBackend _ backendInputs) (objectKeys first) = _
    have hseed : seedFromBackend
        (ensureHeaderMap (reconciledMap m (FetchResult.ok backendInputs) (first :: rest)) order)
        backendInputs
        = ensureHeaderMap (reconciledMap m (FetchResult.ok backendInputs) (first :: rest)) order := by
      apply seedFromBackend_eq_self
      intro d hd hne
      apply mapGet_ensureHeaderMap_of_some
      show mapGet (ensureHeaderMap (seedFromBackend m backendInputs) (objectKeys first)) d.name = _
      apply mapGet_ensureHeaderMap_of_some
      rw [mapGet_seedFromBackend, if_pos ⟨hne, List.mem_map_of_mem _ hd⟩]
    rw [hseed]
    apply ensureHeaderMap_eq_self
    intro k hk
    apply mapHas_ensureHeaderMap_of_has
    exact mapHas_ensureHeaderMap_of_mem _ _ _ hk

theorem reconciledMap_nil_idem (m : HeaderMap) (inputsResult : FetchResult (List ColumnDescriptor)) :
    reconciledMap (reconciledMap m inputsResult []) inputsResult [] = reconciledMap m inputsResult [] := by
  cases inputsResult with
  | error msg => rfl
  | ok backendInputs =>
    show seedFromBackend (seedFromBackend m backendInputs) backendInputs = _
    apply seedFromBackend_eq_self
    intro d hd hne
    rw [mapGet_seedFromBackend, if_pos ⟨hne, List.mem_map_of_mem _ hd⟩]

/-- C2: reconciliation is idempotent.  From any state, for every fetched row
set and every backend response (a descriptor list or a failure), running
`loadInitialDataAndHeaders` a second time on the same rows and the same backend
response leaves `currentColumnOrder` and `headerMap` exactly as the first run
left them. -/
theorem load_twice_same_order_and_headerMap (st : State) (data : List Row)
    (inputsResult : FetchResult (List ColumnDescriptor)) (update1 update2 : FetchResult Unit) :
    (loadInitialDataAndHeaders
        (loadInitialDataAndHeaders st (FetchResult.ok data) inputsResult update1).1
        (FetchResult.ok data) inputsResult update2).1.currentColumnOrder
      = (loadInitialDataAndHeaders st (FetchResult.ok data) inputsResult update1).1.currentColumnOrder
    ∧ (loadInitialDataAndHeaders
        (loadInitialDataAndHeaders st (FetchResult.ok data) inputsResult update1).1
        (FetchResult.ok data) inputsResult update2).1.headerMap
      = (loadInitialDataAndHeaders st (FetchResult.ok data) inputsResult update1).1.headerMap := by
  cases data with
  | nil =>
    constructor
    · rw [load_nil_order, load_nil_order]
      cases inputsResult <;> rfl
    · rw [load_nil_headerMap, load_nil_headerMap, reconciledMap_nil_idem]
  | cons first rest =>
    constructor
    · rw [load_cons_order, load_cons_order]
    · rw [load_cons_headerMap, load_cons_headerMap, reconciledMap_ensure_eq_self]
      apply ensureHeaderMap_eq_self
      intro k hk
      exact mapHas_ensureHeaderMap_of_mem _ _ _ hk

/-! ## Reordering: `handleDragOver` -/

theorem find?_skip {α : Type} (p : α → Bool) (pre post : List α) (x : α)
    (hpre : ∀ y ∈ pre, p y = false) (hx : p x = true) :
    (pre ++ x :: post).find? p = some x := by
  induction pre with
  | nil => simp [hx]
  | cons a rest ih =>
    have ha : p a = false := hpre a (List.mem_cons_self _ _)
    simp only [List.cons_append, List.find?_cons, ha]
    exact ih (fun y hy => hpre y (List.mem_cons_of_mem _ hy))

theorem findIdx?_skip {α : Type} (p : α → Bool) (pre post : List α) (x : α)
    (hpre : ∀ y ∈ pre, p y = false) (hx : p x = true) :
    (pre ++ x :: post).findIdx? p = some pre.length := by
  induction pre with
  | nil => simp [List.findIdx?_cons, hx]
  | cons a rest ih =>
    have ha : p a = false := hpre a (List.mem_cons_self _ _)
    simp only [List.cons_append, List.findIdx?_cons, ha, List.length_cons]
    rw [List.findIdx?_succ, ih (fun y hy => hpre y (List.mem_cons_of_mem _ hy))]
    simp

theorem split_at_index {α : Type} (l : List α) (i : Nat) (x : α) (h : l[i]? = some x) :
    ∃ pre post, l = pre ++ x :: post ∧ pre.length = i := by
  induction l generalizing i with
  | nil => simp at h
  | cons a rest ih =>
    cases i with
    | zero =>
      simp at h
      exact ⟨[], rest, by simp [h], rfl⟩
    | succ n =>
      simp at h
      obtain ⟨pre, post, hl, hlen⟩ := ih n h
      exact ⟨a :: pre, post, by simp [hl], by simp [hlen]⟩

theorem filter_remove_node (pre post : List Th) (d : Th)
    (hpre : ∀ y ∈ pre, y.nodeId ≠ d.nodeId) (hpost : ∀ y ∈ post, y.nodeId ≠ d.nodeId) :
    (pre ++ d :: post).filter (fun c => c.nodeId != d.nodeId) = pre ++ post := by
  rw [List.filter_append, List.filter_cons]
  have h1 : pre.filter (fun c => c.nodeId != d.nodeId) = pre := by
    apply List.filter_eq_self.mpr
    intro y hy
    simpa using hpre y hy
  have h2 : post.filter (fun c => c.nodeId != d.nodeId) = post := by
    apply List.filter_eq_self.mpr
    intro y hy
    simpa using hpost y hy
  simp [h1, h2]

theorem insertBefore_none (children : List Th) (node : Th) :
    insertBefore children node none
      = children.filter (fun c => c.nodeId != node.nodeId) ++ [node] := rfl

theorem insertBefore_some (pre post : List Th) (d r : Th) (children : List Th)
    (hrest : children.filter (fun c => c.nodeId != d.nodeId) = pre ++ r :: post)
    (hpre : ∀ y ∈ pre, y.nodeId ≠ r.nodeId) :
    insertBefore children d (some r) = pre ++ d :: r :: post := by
  have hidx : (pre ++ r :: post).findIdx? (fun c => c.nodeId == r.nodeId) = some pre.length :=
    findIdx?_skip _ pre post r (fun y hy => by simpa using hpre y hy) (by simp)
  simp only [insertBefore, hrest, hidx]
  simp

/-- Facts about a header row with pairwise different node identities, split
at the dragged cell `d` and the target cell `t` with `d` on the left. -/
theorem nodup_split_facts (A B C : List Th) (d t : Th)
    (hids : ((A ++ d :: (B ++ t :: C)).map (fun th => th.nodeId)).Nodup) :
    (∀ y ∈ A, y.nodeId ≠ d.nodeId) ∧ (∀ y ∈ B, y.nodeId ≠ d.nodeId)
      ∧ (∀ y ∈ C, y.nodeId ≠ d.nodeId) ∧ (∀ y ∈ A, y.nodeId ≠ t.nodeId)
      ∧ (∀ y ∈ B, y.nodeId ≠ t.nodeId) ∧ (∀ y ∈ C, y.nodeId ≠ t.nodeId)
      ∧ t.nodeId ≠ d.nodeId := by
  simp only [List.map_append, List.map_cons, List.nodup_append, List.nodup_cons, List.mem_append,
    List.mem_cons, List.mem_map, not_or, not_exists, not_and, List.Disjoint] at hids
  obtain ⟨hA, ⟨⟨hdB, hdt, hdC⟩, hB, ⟨htC, hC⟩, hBt⟩, hAd⟩ := hids
  refine ⟨?_, ?_, ?_, ?_, ?_, ?_, ?_⟩
  · intro y hy hyd
    exact hAd ⟨y, hy, rfl⟩ (Or.inl hyd)
  · intro y hy hyd
    exact hdB y hy hyd
  · intro y hy hyd
    exact hdC y hy hyd
  · intro y hy hyt
    exact hAd ⟨y, hy, rfl⟩ (Or.inr (Or.inr (Or.inl hyt)))
  · intro y hy hyt
    exact hBt ⟨y, hy, rfl⟩ (Or.inl hyt)
  · intro y hy hyt
    exact htC y hy hyt
  · exact fun h => hdt h.symm

theorem handleDragOver_order (st : State) (drag targetTh : Th) (targetId : Nat)
    (hdrag : st.dragTargetTh = some drag) (htarget : findTh st.headerRow targetId = some targetTh)
    (hne : targetTh.nodeId ≠ drag.nodeId) :
    (handleDragOver st (some targetId)).currentColumnOrder
      = (if indexOfNode st.headerRow drag < indexOfNode st.headerRow targetTh then
          insertBefore st.headerRow (liveNode st.headerRow drag) (nextSibling st.headerRow targetTh)
        else
          insertBefore st.headerRow (liveNode st.headerRow drag) (some targetTh)).map
          (fun th => th.originalName) := by
  simp only [handleDragOver, hdrag, Option.bind, htarget]
  rw [if_pos hne]
  rfl

theorem handleDragOver_tableBody (st : State) (drag targetTh : Th) (targetId : Nat)
    (hdrag : st.dragTargetTh = some drag) (htarget : findTh st.headerRow targetId = some targetTh)
    (hne : targetTh.nodeId ≠ drag.nodeId) :
    (handleDragOver st (some targetId)).tableBody
      = TableBody.rows (renderRows (handleDragOver st (some targetId)).currentColumnOrder
          (paginatedData st st.currentTableData)) := by
  simp only [handleDragOver, hdrag, Option.bind, htarget]
  rw [if_pos hne]
  rfl

theorem dragOver_rightward (st : State) (A B C : List Th) (d t drag : Th)
    (hrow : st.headerRow = A ++ d :: (B ++ t :: C))
    (hids : (st.headerRow.map (fun th => th.nodeId)).Nodup)
    (hdrag : st.dragTargetTh = some drag) (hd : drag.nodeId = d.nodeId) :
    (handleDragOver st (some t.nodeId)).currentColumnOrder
      = (A ++ (B ++ t :: d :: C)).map (fun th => th.originalName) := by
  rw [hrow] at hids
  obtain ⟨hAd, hBd, hCd, hAt, hBt, hCt, htd⟩ := nodup_split_facts A B C d t hids
  have hrow2 : st.headerRow = (A ++ d :: B) ++ t :: C := by simp [hrow]
  have hpre_t : ∀ y ∈ A ++ d :: B, (y.nodeId == t.nodeId) = false := by
    intro y hy
    simp only [List.mem_append, List.mem_cons] at hy
    rcases hy with hy | rfl | hy
    · simpa using hAt y hy
    · simpa using Ne.symm htd
    · simpa using hBt y hy
  have hfind_t : findTh st.headerRow t.nodeId = some t := by
    rw [hrow2]
    exact find?_skip _ _ _ _ hpre_t (by simp)
  have hfind_d : findTh st.headerRow drag.nodeId = some d := by
    rw [hrow, hd]
    exact find?_skip _ _ _ _ (fun y hy => by simpa using hAd y hy) (by simp)
  have hidx_d : indexOfNode st.headerRow drag = (A.length : Int) := by
    have : st.headerRow.findIdx? (fun c => c.nodeId == drag.nodeId) = some A.length := by
      rw [hrow, hd]
      exact findIdx?_skip _ _ _ _ (fun y hy => by simpa using hAd y hy) (by simp)
    simp only [indexOfNode, this]
  have hidx_t' : st.headerRow.findIdx? (fun c => c.nodeId == t.nodeId)
      = some (A ++ d :: B).length := by
    rw [hrow2]
    exact findIdx?_skip _ _ _ _ hpre_t (by simp)
  have hidx_t : indexOfNode st.headerRow t = ((A ++ d :: B).length : Int) := by
    simp only [indexOfNode, hidx_t']
  have hlive : liveNode st.headerRow drag = d := by
    simp only [liveNode, hfind_d]
  have hnext : nextSibling st.headerRow t = C.head? := by
    simp only [nextSibling, hidx_t', List.get?_eq_getElem?]
    rw [hrow2, List.getElem?_append_right (Nat.le_succ _)]
    have h1 : (A ++ d :: B).length + 1 - (A ++ d :: B).length = 1 := by omega
    rw [h1]
    cases C <;> simp
  have hlt : indexOfNode st.headerRow drag < indexOfNode st.headerRow t := by
    rw [hidx_d, hidx_t]
    simp only [List.length_append, List.length_cons]
    omega
  have hne : t.nodeId ≠ drag.nodeId := by rw [hd]; exact htd
  rw [handleDragOver_order st drag t t.nodeId hdrag hfind_t hne, if_pos hlt, hlive, hnext]
  have hfilter : st.headerRow.filter (fun c => c.nodeId != d.nodeId) = A ++ (B ++ t :: C) := by
    rw [hrow]
    apply filter_remove_node
    · exact hAd
    · intro y hy
      simp only [List.mem_append, List.mem_cons] at hy
      rcases hy with hy | rfl | hy
      · exact hBd y hy
      · exact htd
      · exact hCd y hy
  congr 1
  cases C with
  | nil =>
    simp only [List.head?_nil, insertBefore_none, hfilter]
    simp
  | cons c C' =>
    have hrest : st.headerRow.filter (fun c => c.nodeId != d.nodeId) = (A ++ (B ++ [t])) ++ c :: C' := by
      rw [hfilter]; simp
    have hc : ∀ y ∈ A ++ (B ++ [t]), y.nodeId ≠ c.nodeId := by
      have hn : ((A ++ d :: (B ++ t :: c :: C')).map (fun th => th.nodeId)).Nodup := hids
      simp only [List.map_append, List.map_cons, List.nodup_append, List.nodup_cons,
        List.mem_append, List.mem_cons, List.mem_map, not_or, not_exists, not_and,
        List.Disjoint] at hn
      obtain ⟨_, ⟨_, hB, ⟨⟨htc, _⟩, _⟩, hBt2⟩, hAd2⟩ := hn
      intro y hy hyc
      simp only [List.mem_append, List.mem_cons, List.mem_singleton, List.not_mem_nil, or_false] at hy
      rcases hy with hy | hy | rfl
      · exact hAd2 ⟨y, hy, rfl⟩ (Or.inr (Or.inr (Or.inr (Or.inl hyc))))
      · exact hBt2 ⟨y, hy, rfl⟩ (Or.inr (Or.inl hyc))
      · exact htc hyc
    rw [List.head?_cons, insertBefore_some _ _ d c _ hrest hc]
    simp

theorem dragOver_leftward (st : State) (A B C : List Th) (d t drag : Th)
    (hrow : st.headerRow = A ++ t :: (B ++ d :: C))
    (hids : (st.headerRow.map (fun th => th.nodeId)).Nodup)
    (hdrag : st.dragTargetTh = some drag) (hd : drag.nodeId = d.nodeId) :
    (handleDragOver st (some t.nodeId)).currentColumnOrder
      = (A ++ d :: t :: (B ++ C)).map (fun th => th.originalName) := by
  rw [hrow] at hids
  obtain ⟨hAt, hBt, hCt, hAd, hBd, hCd, hdt⟩ := nodup_split_facts A B C t d hids
  have hrow2 : st.headerRow = (A ++ t :: B) ++ d :: C := by simp [hrow]
  have hpre_d : ∀ y ∈ A ++ t :: B, (y.nodeId == d.nodeId) = false := by
    intro y hy
    simp only [List.mem_append, List.mem_cons] at hy
    rcases hy with hy | rfl | hy
    · simpa using hAd y hy
    · simpa using Ne.symm hdt
    · simpa using hBd y hy
  have hfind_t : findTh st.headerRow t.nodeId = some t := by
    rw [hrow]
    exact find?_skip _ _ _ _ (fun y hy => by simpa using hAt y hy) (by simp)
  have hfind_d : findTh st.headerRow drag.nodeId = some d := by
    rw [hrow2, hd]
    exact find?_skip _ _ _ _ hpre_d (by simp)
  have hidx_d : indexOfNode st.headerRow drag = ((A ++ t :: B).length : Int) := by
    have : st.headerRow.findIdx? (fun c => c.nodeId == drag.nodeId) = some (A ++ t :: B).length := by
      rw [hrow2, hd]
      exact findIdx?_skip _ _ _ _ hpre_d (by simp)
    simp only [indexOfNode, this]
  have hidx_t : indexOfNode st.headerRow t = (A.length : Int) := by
    have : st.headerRow.findIdx? (fun c => c.nodeId == t.nodeId) = some A.length := by
      rw [hrow]
      exact findIdx?_skip _ _ _ _ (fun y hy => by simpa using hAt y hy) (by simp)
    simp only [indexOfNode, this]
  have hlive : liveNode st.headerRow drag = d := by
    simp only [liveNode, hfind_d]
  have hlt : ¬ indexOfNode st.headerRow drag < indexOfNode st.headerRow t := by
    rw [hidx_d, hidx_t]
    simp only [List.length_append, List.length_cons]
    omega
  have hne : t.nodeId ≠ drag.nodeId := by rw [hd]; exact Ne.symm hdt
  rw [handleDragOver_order st drag t t.nodeId hdrag hfind_t hne, if_neg hlt, hlive]
  have hrest : st.headerRow.filter (fun c => c.nodeId != d.nodeId) = A ++ t :: (B ++ C) := by
    rw [hrow2]
    have := filter_remove_node (A ++ t :: B) C d
      (fun y hy => by simpa using hpre_d y hy) hCd
    simpa using this
  rw [insertBefore_some A (B ++ C) d t _ hrest hAt]

theorem getElem?_at {α : Type} (pre post : List α) (x : α) :
    (pre ++ x :: post)[pre.length]? = some x := by
  induction pre with
  | nil => simp
  | cons a rest ih => simpa using ih

theorem eraseIdx_at {α : Type} (pre post : List α) (x : α) :
    (pre ++ x :: post).eraseIdx pre.length = pre ++ post := by
  induction pre with
  | nil => rfl
  | cons a rest ih => simpa using ih

theorem insertIdx_at {α : Type} (pre post : List α) (x : α) :
    (pre ++ post).insertIdx pre.length x = pre ++ x :: post := by
  induction pre with
  | nil => cases post <;> rfl
  | cons a rest ih => simpa using ih

theorem reorderSpec_rightward (A B C : List String) (s t : String) :
    reorderSpec (A ++ s :: (B ++ t :: C)) A.length (A.length + 1 + B.length)
      = A ++ (B ++ t :: s :: C) := by
  have hlt : A.length < A.length + 1 + B.length := by omega
  have hpos : A.length + 1 + B.length - 1 + 1 = (A ++ (B ++ [t])).length := by
    simp only [List.length_append, List.length_cons, List.length_nil]; omega
  have hsplit : A ++ (B ++ t :: C) = (A ++ (B ++ [t])) ++ C := by simp
  simp only [reorderSpec, getElem?_at, eraseIdx_at, if_pos hlt]
  rw [hpos, hsplit, insertIdx_at]
  simp

theorem reorderSpec_leftward (A B C : List String) (s t : String) :
    reorderSpec (A ++ t :: (B ++ s :: C)) (A.length + 1 + B.length) A.length
      = A ++ s :: t :: (B ++ C) := by
  have hlt : ¬ A.length + 1 + B.length < A.length := by omega
  have h1 : A ++ t :: (B ++ s :: C) = (A ++ t :: B) ++ s :: C := by simp
  have h2 : A.length + 1 + B.length = (A ++ t :: B).length := by
    simp only [List.length_append, List.length_cons]; omega
  have h3 : (A ++ t :: B) ++ C = A ++ (t :: (B ++ C)) := by simp
  rw [h1, h2]
  simp only [reorderSpec, getElem?_at, eraseIdx_at]
  rw [← h2, if_neg hlt, if_neg hlt, h3, insertIdx_at]

/-- While the dragged header cell is still a cell of the header row (the cell
at position `i`), a `dragOver` onto another header cell (position `j ≠ i`)
makes `currentColumnOrder` the order obtained by removing the source and
reinserting it immediately after the target when the source's old index is
less than the target's index, and immediately before the target otherwise
(`reorderSpec`).  It holds in every state whose header row shows
`currentColumnOrder` with pairwise different cells.  In particular, from
`[a, b, c, d]`, dragging `a` onto `c` yields `[b, c, a, d]` and dragging `d`
onto `b` yields `[a, d, b, c]`. -/
theorem dragOver_reinserts_source_next_to_target :
    (∀ (st : State) (i j : Nat) (d t drag : Th),
      st.headerRow.map (fun th => th.originalName) = st.currentColumnOrder →
      (st.headerRow.map (fun th => th.nodeId)).Nodup →
      st.headerRow[i]? = some d → st.headerRow[j]? = some t → i ≠ j →
      st.dragTargetTh = some drag → drag.nodeId = d.nodeId →
      (handleDragOver st (some t.nodeId)).currentColumnOrder
        = reorderSpec st.currentColumnOrder i j)
    ∧ abcdState.currentColumnOrder = ["a", "b", "c", "d"]
    ∧ (handleDragOver (handleDragStart abcdState (some 0)) (some 2)).currentColumnOrder
        = ["b", "c", "a", "d"]
    ∧ (handleDragOver (handleDragStart abcdState (some 3)) (some 1)).currentColumnOrder
        = ["a", "d", "b", "c"] := by
  refine ⟨?_, by decide, by decide, by decide⟩
  intro st i j d t drag hsync hids hi hj hij hdrag hd
  rw [← hsync]
  rcases Nat.lt_or_gt_of_ne hij with hlt | hgt
  · obtain ⟨A, R, hrow, hA⟩ := split_at_index _ i d hi
    have hj2 : R[j - i - 1]? = some t := by
      rw [hrow, List.getElem?_append_right (by omega)] at hj
      have hji : j - A.length = (j - i - 1) + 1 := by omega
      rw [hji] at hj
      simpa using hj
    obtain ⟨B, C, hR, hB⟩ := split_at_index _ _ t hj2
    subst hR
    rw [dragOver_rightward st A B C d t drag hrow hids hdrag hd, hrow]
    have key := reorderSpec_rightward (A.map (fun th => th.originalName))
      (B.map (fun th => th.originalName)) (C.map (fun th => th.originalName))
      d.originalName t.originalName
    have hjj : (A.map (fun th => th.originalName)).length + 1
        + (B.map (fun th => th.originalName)).length = j := by
      simp only [List.length_map]; omega
    have hii : (A.map (fun th => th.originalName)).length = i := by
      simp only [List.length_map]; omega
    rw [hjj, hii] at key
    simp only [List.map_append, List.map_cons]
    exact key.symm
  · obtain ⟨A, R, hrow, hA⟩ := split_at_index _ j t hj
    have hi2 : R[i - j - 1]? = some d := by
      rw [hrow, List.getElem?_append_right (by omega)] at hi
      have hij2 : i - A.length = (i - j - 1) + 1 := by omega
      rw [hij2] at hi
      simpa using hi
    obtain ⟨B, C, hR, hB⟩ := split_at_index _ _ d hi2
    subst hR
    rw [dragOver_leftward st A B C d t drag hrow hids hdrag hd, hrow]
    have key := reorderSpec_leftward (A.map (fun th => th.originalName))
      (B.map (fun th => th.originalName)) (C.map (fun th => th.originalName))
      d.originalName t.originalName
    have hii : (A.map (fun th => th.originalName)).length + 1
        + (B.map (fun th => th.originalName)).length = i := by
      simp only [List.length_map]; omega
    have hjj : (A.map (fun th => th.originalName)).length = j := by
      simp only [List.length_map]; omega
    rw [hii, hjj] at key
    simp only [List.map_append, List.map_cons]
    exact key.symm

theorem dragOver_reinserts_source_next_to_target_witness :
    (handleDragStart abcdState (some 0)).headerRow.map (fun th => th.originalName)
        = (handleDragStart abcdState (some 0)).currentColumnOrder
    ∧ ((handleDragStart abcdState (some 0)).headerRow.map (fun th => th.nodeId)).Nodup
    ∧ (handleDragOver (handleDragStart abcdState (some 0)) (some 2)).currentColumnOrder
        = reorderSpec (handleDragStart abcdState (some 0)).currentColumnOrder 0 2 :=
  ⟨by decide, by decide,
    dragOver_reinserts_source_next_to_target.1 (handleDragStart abcdState (some 0)) 0 2
      ⟨0, "a", 0, "a", true⟩ ⟨2, "c", 2, "c", true⟩ ⟨0, "a", 0, "a", true⟩
      (by decide) (by decide) (by decide) (by decide) (by decide) (by decide) (by decide)⟩

/-- C3: evaluation of the code on the failing input.  The drag of the header
cell `a` of `[a, b, c, d]` has started and the table is rendered again before
the next `dragover` (by a change of the page size, or by a reload that
completes during the drag): `dragTargetTh` still holds the old cell `a`, which
is no longer in the header row.  A `dragOver` onto the new cell `b` then does
not move the column `a`: it inserts the old cell after `b`, and
`currentColumnOrder` becomes `[a, b, a, c, d]`, where removing the source and
reinserting it after the target gives `[b, a, c, d]`. -/
theorem stale_drag_inserts_second_copy :
    Reachable staleDragState
    ∧ staleDragState.currentColumnOrder = ["a", "b", "c", "d"]
    ∧ staleDragState.dragTargetTh = some ⟨0, "a", 0, "a", true⟩
    ∧ staleDragState.headerRow.map (fun th => th.nodeId) = [4, 5, 6, 7]
    ∧ (handleDragOver staleDragState (some 5)).currentColumnOrder = ["a", "b", "a", "c", "d"]
    ∧ reorderSpec staleDragState.currentColumnOrder 0 1 = ["b", "a", "c", "d"]
    ∧ (handleDragOver staleDragState (some 5)).currentColumnOrder
        ≠ reorderSpec staleDragState.currentColumnOrder 0 1
    ∧ staleDragAfterReloadState.currentColumnOrder = ["a", "b", "c", "d"]
    ∧ (handleDragOver staleDragAfterReloadState (some 5)).currentColumnOrder
        = ["a", "b", "a", "c", "d"] := by
  refine ⟨?_, by decide, by decide, by decide, by decide, by decide, by decide, by decide,
    by decide⟩
  exact Reachable.pageSize _ 25 (Reachable.dragStart _ (some 0)
    (Reachable.load _ abcdRows (FetchResult.error "Failed to fetch") (FetchResult.ok ())
      (Reachable.start 10)))

/-! ## Pagination -/

theorem totalPages_eq_ceil (totalRows rowsPerPage : Nat) :
    totalPages totalRows rowsPerPage = ⌈(totalRows : ℚ) / (rowsPerPage : ℚ)⌉₊ := by
  rcases Nat.eq_zero_or_pos rowsPerPage with h0 | hpos
  · subst h0
    simp [totalPages]
  · symm
    apply eq_of_forall_ge_iff
    intro m
    have hq : (0 : ℚ) < (rowsPerPage : ℚ) := by exact_mod_cast hpos
    rw [Nat.ceil_le, div_le_iff₀ hq]
    unfold totalPages
    constructor
    · intro h
      have h2 : totalRows ≤ m * rowsPerPage := by exact_mod_cast h
      have h3 : totalRows + rowsPerPage - 1 < (m + 1) * rowsPerPage := by
        rw [Nat.add_mul, Nat.one_mul]; omega
      exact Nat.lt_succ_iff.mp ((Nat.div_lt_iff_lt_mul hpos).mpr h3)
    · intro h
      have h3 : totalRows + rowsPerPage - 1 < (m + 1) * rowsPerPage :=
        (Nat.div_lt_iff_lt_mul hpos).mp (Nat.lt_succ_iff.mpr h)
      rw [Nat.add_mul, Nat.one_mul] at h3
      have h2 : totalRows ≤ m * rowsPerPage := by omega
      exact_mod_cast h2

theorem totalPages_zero (rowsPerPage : Nat) : totalPages 0 rowsPerPage = 0 := by
  rcases Nat.eq_zero_or_pos rowsPerPage with h0 | hpos
  · subst h0; rfl
  · unfold totalPages
    rw [Nat.zero_add]
    exact Nat.div_eq_of_lt (by omega)

theorem totalPages_pos (totalRows rowsPerPage : Nat) (ht : 1 ≤ totalRows) (hp : 1 ≤ rowsPerPage) :
    1 ≤ totalPages totalRows rowsPerPage := by
  unfold totalPages
  exact (Nat.one_le_div_iff hp).mpr (by omega)

/-- C4 (as the code computes it): for every `totalRows ≥ 0` and `pageSize ≥ 1`
the page count the program computes and displays in `#pageInfo` is
`ceil(totalRows / pageSize)`, without the lower bound `1`: it equals
`max(1, ceil(totalRows / pageSize))` when `totalRows ≥ 1`, it is `0` when
`totalRows = 0`, and it is `3` when `totalRows = 23` and `pageSize = 10`. -/
theorem pageCount_is_ceil :
    (∀ (totalRows pageSize : Nat), 1 ≤ pageSize →
      totalPages totalRows pageSize = ⌈(totalRows : ℚ) / (pageSize : ℚ)⌉₊
      ∧ (1 ≤ totalRows →
          totalPages totalRows pageSize = max 1 ⌈(totalRows : ℚ) / (pageSize : ℚ)⌉₊)
      ∧ totalPages 0 pageSize = 0)
    ∧ (∀ st : State, (renderPaginationControls st).pageInfoText
        = "Page " ++ toString st.currentPage ++ " of "
          ++ toString (totalPages st.totalRows st.rowsPerPage)
          ++ " (" ++ toString st.totalRows ++ " rows)")
    ∧ totalPages 23 10 = 3 := by
  refine ⟨?_, fun _ => rfl, by decide⟩
  intro totalRows pageSize hp
  refine ⟨totalPages_eq_ceil _ _, ?_, totalPages_zero _⟩
  intro ht
  rw [← totalPages_eq_ceil]
  exact (max_eq_right (totalPages_pos _ _ ht hp)).symm

theorem pageCount_is_ceil_witness :
    1 ≤ 10 ∧ totalPages 23 10 = ⌈((23 : ℕ) : ℚ) / ((10 : ℕ) : ℚ)⌉₊ :=
  ⟨by decide, (pageCount_is_ceil.1 23 10 (by decide)).1⟩

/-- C4, the claim as stated, fails when there are no rows: with `totalRows = 0`
and `pageSize = 10` the program computes `0` pages, not
`max(1, ceil(0 / 10)) = 1`, and shows "Page 1 of 0 (0 rows)". -/
theorem pageCount_zero_rows_counterexample :
    totalPages 0 10 ≠ max 1 ⌈((0 : ℕ) : ℚ) / ((10 : ℕ) : ℚ)⌉₊
    ∧ totalPages 0 10 = 0
    ∧ (loadInitialDataAndHeaders initialState (FetchResult.ok []) (FetchResult.ok [])
        (FetchResult.ok ())).1.pageInfoText = "Page 1 of 0 (0 rows)" := by
  refine ⟨?_, by decide, by decide⟩
  rw [← totalPages_eq_ceil]
  decide

theorem jsSlice_eq_take_drop {α : Type} (data : List α) (start stop : Nat) :
    jsSlice data start stop = (data.take (min stop data.length)).drop start := by
  unfold jsSlice
  simp only []
  rw [List.drop_take]
  rcases Nat.le_total start data.length with h | h
  · rw [Nat.min_eq_left h]
  · rw [Nat.min_eq_right h, List.drop_eq_nil_of_le (Nat.le_refl _), List.drop_eq_nil_of_le h]
    simp

theorem paginatedData_eq_sliceSpec (st : State) (data : List Row) (hpage : 1 ≤ st.currentPage)
    (hrows : st.totalRows = data.length) :
    paginatedData st data = sliceSpec data st.currentPage st.rowsPerPage := by
  unfold paginatedData sliceSpec
  simp only []
  rw [jsSlice_eq_take_drop, hrows]
  have h : (st.currentPage - 1) * st.rowsPerPage + st.rowsPerPage = st.currentPage * st.rowsPerPage := by
    obtain ⟨n, hn⟩ : ∃ n, st.currentPage = n + 1 := ⟨st.currentPage - 1, by omega⟩
    rw [hn, Nat.add_sub_cancel, Nat.add_mul, Nat.one_mul]
  rw [h, Nat.min_assoc, Nat.min_self]

theorem sliceSpec_length (rows : List Row) (page pageSize : Nat) :
    (sliceSpec rows page pageSize).length
      = min (page * pageSize) rows.length - (page - 1) * pageSize := by
  unfold sliceSpec
  rw [List.length_drop, List.length_take, Nat.min_assoc, Nat.min_self]

theorem lastPage_start (totalRows pageSize : Nat) (hp : 1 ≤ pageSize)
    (hmod : totalRows % pageSize ≠ 0) :
    totalPages totalRows pageSize = totalRows / pageSize + 1 := by
  have hdm := Nat.div_add_mod totalRows pageSize
  have hr := Nat.mod_lt totalRows hp
  have hsplit : totalRows + pageSize - 1
      = (totalRows % pageSize - 1) + pageSize * (totalRows / pageSize + 1) := by
    rw [Nat.mul_add, Nat.mul_one]; omega
  unfold totalPages
  rw [hsplit, Nat.add_mul_div_left _ _ hp, Nat.div_eq_of_lt (by omega), Nat.zero_add]

/-- C5: for every row sequence, `page ≥ 1` and `pageSize ≥ 1` (with `totalRows`
the number of rows, as `loadInitialDataAndHeaders` sets it), the rows
`populateTable` renders for the page are exactly
`rows[(page-1)*pageSize : min(page*pageSize, len(rows))]`, which is empty when
`(page-1)*pageSize ≥ len(rows)`; at `page = totalPages` with
`totalRows % pageSize ≠ 0` the slice is non-empty and has `totalRows % pageSize`
rows, and with 23 rows, page size 10 and page 3 it has 3 rows.  The body that
`handleDragOver` re-renders during a drag shows the same slice. -/
theorem rendered_rows_are_page_slice :
    (∀ (st : State) (data : List Row) (order : List String),
      1 ≤ st.currentPage → 1 ≤ st.rowsPerPage → st.totalRows = data.length →
      paginatedData st data = sliceSpec data st.currentPage st.rowsPerPage
      ∧ (∀ first rest, data = first :: rest →
          (populateTable st data (some order)).tableBody
            = TableBody.rows (renderRows (activeColumns first order)
                (sliceSpec data st.currentPage st.rowsPerPage)))
      ∧ (∀ (drag targetTh : Th) (targetId : Nat), data = st.currentTableData →
          st.dragTargetTh = some drag → findTh st.headerRow targetId = some targetTh →
          targetTh.nodeId ≠ drag.nodeId →
          (handleDragOver st (some targetId)).tableBody
            = TableBody.rows (renderRows (handleDragOver st (some targetId)).currentColumnOrder
                (sliceSpec data st.currentPage st.rowsPerPage)))
      ∧ ((st.currentPage - 1) * st.rowsPerPage ≥ data.length →
          sliceSpec data st.currentPage st.rowsPerPage = [])
      ∧ (st.currentPage = totalPages st.totalRows st.rowsPerPage →
          st.totalRows % st.rowsPerPage ≠ 0 →
          sliceSpec data st.currentPage st.rowsPerPage ≠ []
          ∧ (sliceSpec data st.currentPage st.rowsPerPage).length
              = st.totalRows % st.rowsPerPage))
    ∧ page3State.totalRows = 23 ∧ page3State.rowsPerPage = 10 ∧ page3State.currentPage = 3
    ∧ page3State.tableBody = TableBody.rows [["20"], ["21"], ["22"]] := by
  refine ⟨?_, by decide, by decide, by decide, by decide⟩
  intro st data order hpage hsize hrows
  have hslice := paginatedData_eq_sliceSpec st data hpage hrows
  refine ⟨hslice, ?_, ?_, ?_, ?_⟩
  · intro first rest hdata
    subst hdata
    rw [← hslice]
    rfl
  · intro drag targetTh targetId hdata hdrag htarget hne
    rw [← hslice, hdata]
    exact handleDragOver_tableBody st drag targetTh targetId hdrag htarget hne
  · intro hout
    unfold sliceSpec
    apply List.drop_eq_nil_of_le
    rw [List.length_take]
    omega
  · intro hlast hmod
    have hlen : (sliceSpec data st.currentPage st.rowsPerPage).length
        = st.totalRows % st.rowsPerPage := by
      rw [sliceSpec_length, hlast, lastPage_start _ _ hsize hmod, Nat.add_sub_cancel, ← hrows]
      have hdm := Nat.div_add_mod st.totalRows st.rowsPerPage
      have hr := Nat.mod_lt st.totalRows hsize
      have h1 : (st.totalRows / st.rowsPerPage + 1) * st.rowsPerPage
          = st.rowsPerPage * (st.totalRows / st.rowsPerPage) + st.rowsPerPage := by
        rw [Nat.add_mul, Nat.one_mul, Nat.mul_comm]
      have h2 : st.totalRows / st.rowsPerPage * st.rowsPerPage
          = st.rowsPerPage * (st.totalRows / st.rowsPerPage) := Nat.mul_comm _ _
      rw [h1, h2, Nat.min_eq_right (by omega)]
      omega
    refine ⟨?_, hlen⟩
    intro hnil
    rw [hnil] at hlen
    exact hmod hlen.symm

theorem rendered_rows_are_page_slice_witness :
    1 ≤ page3State.currentPage ∧ 1 ≤ page3State.rowsPerPage
    ∧ page3State.totalRows = rows23.length
    ∧ paginatedData page3State rows23 = sliceSpec rows23 page3State.currentPage page3State.rowsPerPage :=
  ⟨by decide, by decide, by decide,
    (rendered_rows_are_page_slice.1 page3State rows23 [] (by decide) (by decide) (by decide)).1⟩

theorem populateTable_pagination (st : State) (data : List Row) (columnOrder : Option (List String)) :
    (populateTable st data columnOrder).currentPage = st.currentPage
    ∧ (populateTable st data columnOrder).rowsPerPage = st.rowsPerPage
    ∧ (populateTable st data columnOrder).totalRows = st.totalRows := by
  cases data <;> exact ⟨rfl, rfl, rfl⟩

/-- C6: `prevPage` when `currentPage = 1`, and `nextPage` when `currentPage` is
the last page `max(1, ceil(totalRows / rowsPerPage))`, return the state they
were given: no field changes (no wrap-around), and both are total functions
(nothing is thrown). -/
theorem page_navigation_noop_at_bounds (st : State) :
    (st.currentPage = 1 → prevPage st = st)
    ∧ (st.currentPage = max 1 (totalPages st.totalRows st.rowsPerPage) → nextPage st = st) := by
  constructor
  · intro h
    unfold prevPage
    rw [if_neg (by omega)]
  · intro h
    unfold nextPage
    simp only []
    rw [if_neg]
    have := Nat.le_max_right 1 (totalPages st.totalRows st.rowsPerPage)
    omega

theorem page_navigation_noop_at_bounds_witness :
    abcdState.currentPage = 1
    ∧ abcdState.currentPage = max 1 (totalPages abcdState.totalRows abcdState.rowsPerPage)
    ∧ prevPage abcdState = abcdState ∧ nextPage abcdState = abcdState :=
  ⟨by decide, by decide, (page_navigation_noop_at_bounds abcdState).1 (by decide),
    (page_navigation_noop_at_bounds abcdState).2 (by decide)⟩

theorem paginationInv_populateTable (st : State) (data : List Row)
    (columnOrder : Option (List String)) (h : paginationInv st) :
    paginationInv (populateTable st data columnOrder) := by
  obtain ⟨h1, h2, h3⟩ := populateTable_pagination st data columnOrder
  unfold paginationInv
  rw [h1, h2, h3]
  exact h

theorem paginationInv_of_page_one (st : State) (h : st.currentPage = 1) : paginationInv st := by
  unfold paginationInv
  rw [h]
  exact ⟨Nat.le_refl 1, Nat.le_max_left _ _⟩

/-- C7: the pagination invariant `1 ≤ currentPage ≤ max(1, ceil(totalRows /
rowsPerPage))` holds in the initial state and is preserved by `nextPage`,
`prevPage`, `changeRowsPerPage` (for any new page size `≥ 1`, which also resets
the page to 1) and by a data reload, whatever the fetches return. -/
theorem pagination_invariant :
    paginationInv initialState
    ∧ ∀ st : State, paginationInv st →
        paginationInv (nextPage st)
        ∧ paginationInv (prevPage st)
        ∧ (∀ pageSize, 1 ≤ pageSize →
            paginationInv (changeRowsPerPage st pageSize)
            ∧ (changeRowsPerPage st pageSize).currentPage = 1)
        ∧ (∀ (dataResult : FetchResult (List Row))
            (inputsResult : FetchResult (List ColumnDescriptor)) (updateResult : FetchResult Unit),
            paginationInv (loadInitialDataAndHeaders st dataResult inputsResult updateResult).1) := by
  refine ⟨by decide, ?_⟩
  intro st hinv
  refine ⟨?_, ?_, ?_, ?_⟩
  · unfold nextPage
    simp only []
    split
    · rename_i hlt
      apply paginationInv_populateTable
      refine ⟨Nat.le_add_left 1 _, ?_⟩
      show st.currentPage + 1 ≤ max 1 (totalPages st.totalRows st.rowsPerPage)
      exact Nat.le_trans hlt (Nat.le_max_right _ _)
    · exact hinv
  · unfold prevPage
    split
    · rename_i hgt
      apply paginationInv_populateTable
      refine ⟨?_, ?_⟩
      · show 1 ≤ st.currentPage - 1
        omega
      · show st.currentPage - 1 ≤ max 1 (totalPages st.totalRows st.rowsPerPage)
        exact Nat.le_trans (Nat.sub_le _ _) hinv.2
    · exact hinv
  · intro pageSize _
    have hpage : (changeRowsPerPage st pageSize).currentPage = 1 :=
      (populateTable_pagination _ _ _).1
    exact ⟨paginationInv_of_page_one _ hpage, hpage⟩
  · intro dataResult inputsResult updateResult
    cases dataResult with
    | error message => exact hinv
    | ok data =>
      apply paginationInv_of_page_one
      cases inputsResult with
      | error msg =>
        cases data with
        | nil => exact (populateTable_pagination _ _ _).1
        | cons first rest => exact (populateTable_pagination _ _ _).1
      | ok backendInputs =>
        simp only [loadInitialDataAndHeaders]
        split <;> exact (populateTable_pagination _ _ _).1

theorem pagination_invariant_witness :
    paginationInv page3State ∧ paginationInv (nextPage page3State)
    ∧ paginationInv (prevPage page3State) :=
  ⟨by decide, (pagination_invariant.2 page3State (by decide)).1,
    (pagination_invariant.2 page3State (by decide)).2.1⟩

/-! ## Renaming: `handleBlur` -/

theorem dropWhile_all {α : Type} (p : α → Bool) (l : List α) (h : ∀ x ∈ l, p x = true) :
    l.dropWhile p = [] := by
  induction l with
  | nil => rfl
  | cons a rest ih =>
    rw [List.dropWhile_cons, if_pos (h a (List.mem_cons_self _ _))]
    exact ih (fun x hx => h x (List.mem_cons_of_mem _ hx))

theorem jsTrim_of_all_blank (s : String) (h : ∀ c ∈ s.data, isTrimChar c = true) :
    jsTrim s = "" := by
  unfold jsTrim
  rw [dropWhile_all _ _ h]
  rfl

theorem findTh_updateTh (headerRow : List Th) (target : Nat) (f : Th → Th)
    (hf : ∀ th, (f th).nodeId = th.nodeId) :
    findTh (updateTh headerRow target f) target = (findTh headerRow target).map f := by
  induction headerRow with
  | nil => rfl
  | cons a rest ih =>
    unfold findTh updateTh at ih ⊢
    by_cases ha : a.nodeId = target
    · simp [List.find?_cons, ha, hf]
    · simp only [List.map_cons, List.find?_cons]
      have h1 : (a.nodeId == target) = false := by simpa using ha
      rw [h1]
      simp only [Bool.false_eq_true, if_false]
      rw [h1]
      exact ih

/-! ## The end-to-end scenarios -/

theorem activeColumns_keys (first : Row) : activeColumns first (objectKeys first) = objectKeys first := by
  unfold activeColumns
  apply List.filter_eq_self.mpr
  intro k hk
  simpa using hk

theorem createHeaders_names (m : HeaderMap) (firstId : Nat) (order : List String) :
    (createHeaders m firstId order).map (fun th => th.originalName) = order := by
  unfold createHeaders
  rw [List.map_map]
  exact List.enum_map_snd order

theorem createHeaders_ids_nodup (m : HeaderMap) (firstId : Nat) (order : List String) :
    ((createHeaders m firstId order).map (fun th => th.nodeId)).Nodup := by
  have h : (createHeaders m firstId order).map (fun th => th.nodeId)
      = (List.range order.length).map (fun i => firstId + i) := by
    unfold createHeaders
    rw [List.map_map, ← List.enum_map_fst, List.map_map]
    rfl
  rw [h]
  exact List.Nodup.map (fun a b hab => Nat.add_left_cancel hab) (List.nodup_range _)

theorem populateTable_cons_headerRow (st : State) (first : Row) (rest : List Row)
    (order : List String) :
    (populateTable st (first :: rest) (some order)).headerRow
      = createHeaders (ensureHeaderMap st.headerMap (activeColumns first order)) st.nextNodeId
          (activeColumns first order) :=
  rfl

theorem populateTable_cons_header_sync (st : State) (first : Row) (rest : List Row)
    (order : List String) :
    (populateTable st (first :: rest) (some order)).headerRow.map (fun th => th.originalName)
        = (populateTable st (first :: rest) (some order)).currentColumnOrder
    ∧ ((populateTable st (first :: rest) (some order)).headerRow.map (fun th => th.nodeId)).Nodup := by
  rw [populateTable_cons_headerRow, populateTable_cons_order]
  exact ⟨createHeaders_names _ _ _, createHeaders_ids_nodup _ _ _⟩

theorem populateTable_cons_tableBody (st : State) (first : Row) (rest : List Row)
    (order : List String) :
    (populateTable st (first :: rest) (some order)).tableBody
      = TableBody.rows (renderRows (activeColumns first order) (paginatedData st (first :: rest))) :=
  rfl

theorem sliceSpec_first_page (data : List Row) (pageSize : Nat) :
    sliceSpec data 1 pageSize = data.take pageSize := by
  unfold sliceSpec
  rw [Nat.sub_self, Nat.zero_mul, List.drop_zero, Nat.one_mul]
  rcases Nat.le_total pageSize data.length with h | h
  · rw [Nat.min_eq_left h]
  · rw [Nat.min_eq_right h, List.take_of_length_le h, List.take_of_length_le (Nat.le_refl _)]

/-- C9: when the backend column fetch fails and the row set is non-empty, then
from any state `currentColumnOrder` becomes the keys of the first row in their
order, `headerMap` maps each of those keys to itself (other entries stay as
they were), and rendering proceeds: one header cell per key and the first page
of rows, with the notice.  For the rows `{id:1,name:"X"}`, `{id:2,name:"Y"}`
loaded into the initial state this gives the order `[id, name]`, the map
`{id: id, name: name}`, two rendered rows of two cells and the page info
"Page 1 of 1 (2 rows)"; the page info is the same for every page size of at
least 2 selected in `#rowsPerPage`. -/
theorem backend_failure_falls_back_to_row_keys :
    (∀ (st : State) (first : Row) (rest : List Row) (message : String)
        (updateResult : FetchResult Unit),
      (loadInitialDataAndHeaders st (FetchResult.ok (first :: rest)) (FetchResult.error message)
          updateResult).1.currentColumnOrder = objectKeys first
      ∧ (∀ k, mapGet (loadInitialDataAndHeaders st (FetchResult.ok (first :: rest))
            (FetchResult.error message) updateResult).1.headerMap k
          = if k ∈ objectKeys first then some k else mapGet st.headerMap k)
      ∧ (loadInitialDataAndHeaders st (FetchResult.ok (first :: rest)) (FetchResult.error message)
          updateResult).1.headerRow.map (fun th => th.originalName) = objectKeys first
      ∧ (loadInitialDataAndHeaders st (FetchResult.ok (first :: rest)) (FetchResult.error message)
          updateResult).1.tableBody
          = TableBody.rows (renderRows (objectKeys first) ((first :: rest).take st.rowsPerPage))
      ∧ (loadInitialDataAndHeaders st (FetchResult.ok (first :: rest)) (FetchResult.error message)
          updateResult).2
          = [Effect.notification
              "Failed to fetch backend inputs. Displaying data with default column order." "info"])
    ∧ (loadInitialDataAndHeaders initialState (FetchResult.ok scenarioRows)
        (FetchResult.error "Failed to fetch") (FetchResult.ok ())).1.currentColumnOrder
        = ["id", "name"]
    ∧ (loadInitialDataAndHeaders initialState (FetchResult.ok scenarioRows)
        (FetchResult.error "Failed to fetch") (FetchResult.ok ())).1.headerMap
        = [("id", "id"), ("name", "name")]
    ∧ (loadInitialDataAndHeaders initialState (FetchResult.ok scenarioRows)
        (FetchResult.error "Failed to fetch") (FetchResult.ok ())).1.tableBody
        = TableBody.rows [["1", "X"], ["2", "Y"]]
    ∧ (loadInitialDataAndHeaders initialState (FetchResult.ok scenarioRows)
        (FetchResult.error "Failed to fetch") (FetchResult.ok ())).1.pageInfoText
        = "Page 1 of 1 (2 rows)"
    ∧ (∀ pageSize : Nat, 2 ≤ pageSize →
        (loadInitialDataAndHeaders { initialState with rowsPerPage := pageSize }
          (FetchResult.ok scenarioRows) (FetchResult.error "Failed to fetch")
          (FetchResult.ok ())).1.pageInfoText = "Page 1 of 1 (2 rows)") := by
  refine ⟨?_, by decide, by decide, by decide, by decide, ?_⟩
  swap
  · intro pageSize hsize
    have hpages : totalPages 2 pageSize = 1 := by
      unfold totalPages
      have h1 : 2 + pageSize - 1 = 1 + pageSize * 1 := by omega
      rw [h1, Nat.add_mul_div_left _ _ (by omega : 0 < pageSize), Nat.div_eq_of_lt (by omega)]
    show "Page " ++ toString 1 ++ " of " ++ toString (totalPages 2 pageSize)
      ++ " (" ++ toString 2 ++ " rows)" = "Page 1 of 1 (2 rows)"
    rw [hpages]
    decide
  intro st first rest message updateResult
  have horder : (loadInitialDataAndHeaders st (FetchResult.ok (first :: rest))
      (FetchResult.error message) updateResult).1.currentColumnOrder = objectKeys first := by
    rw [load_cons_order]
    exact activeColumns_keys first
  have hmap : (loadInitialDataAndHeaders st (FetchResult.ok (first :: rest))
      (FetchResult.error message) updateResult).1.headerMap
      = setIdentity st.headerMap (objectKeys first) := by
    rw [load_cons_headerMap]
    apply ensureHeaderMap_eq_self
    intro k hk
    have hk2 : k ∈ objectKeys first := activeColumns_subset _ _ hk
    rw [mapHas_eq_isSome]
    show (mapGet (setIdentity st.headerMap (objectKeys first)) k).isSome = true
    rw [mapGet_setIdentity, if_pos hk2]
    rfl
  refine ⟨horder, ?_, ?_, ?_, rfl⟩
  · intro k
    rw [hmap, mapGet_setIdentity]
  · show (populateTable _ (first :: rest) (some (objectKeys first))).headerRow.map _ = _
    rw [populateTable_cons_headerRow, createHeaders_names, activeColumns_keys]
  · show (populateTable _ (first :: rest) (some (objectKeys first))).tableBody = _
    rw [populateTable_cons_tableBody, activeColumns_keys,
      paginatedData_eq_sliceSpec _ _ (Nat.le_refl 1) rfl]
    show TableBody.rows (renderRows (objectKeys first) (sliceSpec (first :: rest) 1 st.rowsPerPage)) = _
    rw [sliceSpec_first_page]

theorem backend_failure_falls_back_to_row_keys_witness :
    (loadInitialDataAndHeaders { initialState with rowsPerPage := 25 }
      (FetchResult.ok scenarioRows) (FetchResult.error "Failed to fetch")
      (FetchResult.ok ())).1.pageInfoText = "Page 1 of 1 (2 rows)" :=
  backend_failure_falls_back_to_row_keys.2.2.2.2.2 25 (by decide)

theorem sortedInsert_perm (a : ColumnDescriptor) (l : List ColumnDescriptor) :
    (sortedInsert a l).Perm (a :: l) := by
  induction l with
  | nil => exact List.Perm.refl _
  | cons b rest ih =>
    unfold sortedInsert
    split
    · exact List.Perm.refl _
    · exact ((List.Perm.cons b ih).trans (List.Perm.swap a b rest))

theorem sortInputs_perm (l : List ColumnDescriptor) : (sortInputs l).Perm l := by
  induction l with
  | nil => exact List.Perm.refl _
  | cons a rest ih =>
    exact (sortedInsert_perm a (sortInputs rest)).trans (List.Perm.cons a ih)

theorem sortInputs_eq_nil_iff (l : List ColumnDescriptor) : sortInputs l = [] ↔ l = [] := by
  constructor
  · intro h
    have hp := sortInputs_perm l
    rw [h] at hp
    exact List.Perm.eq_nil hp.symm
  · intro h
    subst h
    rfl

theorem activeColumns_eq_nil (first : Row) (order : List String)
    (h : ∀ k ∈ order, k ∉ objectKeys first) : activeColumns first order = [] := by
  unfold activeColumns
  apply List.filter_eq_nil_iff.mpr
  intro k hk
  simpa using h k hk

/-- C10 (as the code behaves): when the backend returns a non-empty descriptor
list none of whose names is a key of the first row, reconciliation does not
fall back: every backend name is filtered out, `currentColumnOrder` is empty
and no request is issued.  The fallback to the keys of the first row together
with the `POST /bulk-inputs` of the inferred descriptors happens only when the
backend returns an empty descriptor list.  For the descriptors `Name`/`ID`
against the row keys `id`/`name` the order is empty and nothing is posted. -/
theorem mismatching_backend_names_leave_no_columns :
    (∀ (st : State) (first : Row) (rest : List Row) (backendInputs : List ColumnDescriptor)
        (updateResult : FetchResult Unit),
      backendInputs ≠ [] → (∀ d ∈ backendInputs, d.name ∉ objectKeys first) →
      (loadInitialDataAndHeaders st (FetchResult.ok (first :: rest)) (FetchResult.ok backendInputs)
          updateResult).1.currentColumnOrder = []
      ∧ (loadInitialDataAndHeaders st (FetchResult.ok (first :: rest)) (FetchResult.ok backendInputs)
          updateResult).2 = [])
    ∧ (∀ (st : State) (first : Row) (rest : List Row) (updateResult : FetchResult Unit),
      (loadInitialDataAndHeaders st (FetchResult.ok (first :: rest)) (FetchResult.ok [])
          updateResult).1.currentColumnOrder = objectKeys first
      ∧ (loadInitialDataAndHeaders st (FetchResult.ok (first :: rest)) (FetchResult.ok [])
          updateResult).2.head? = some (Effect.postBulkInputs (inferredInputs (objectKeys first))))
    ∧ (loadInitialDataAndHeaders initialState (FetchResult.ok scenarioRows)
        (FetchResult.ok mismatchInputs) (FetchResult.ok ())).1.currentColumnOrder = []
    ∧ (loadInitialDataAndHeaders initialState (FetchResult.ok scenarioRows)
        (FetchResult.ok mismatchInputs) (FetchResult.ok ())).2 = [] := by
  refine ⟨?_, ?_, by decide, by decide⟩
  · intro st first rest backendInputs updateResult hne hnames
    have hsorted : sortInputs backendInputs ≠ [] :=
      fun h => hne ((sortInputs_eq_nil_iff _).mp h)
    constructor
    · rw [load_cons_order]
      apply activeColumns_eq_nil
      intro k hk
      simp only [requestedOrder] at hk
      cases hs : sortInputs backendInputs with
      | nil => exact absurd hs hsorted
      | cons d ds =>
        rw [hs] at hk
        obtain ⟨e, he, rfl⟩ := List.mem_map.mp hk
        have he2 : e ∈ sortInputs backendInputs := by rw [hs]; exact he
        exact hnames e ((sortInputs_perm backendInputs).mem_iff.mp he2)
    · simp only [loadInitialDataAndHeaders]
      cases hs : sortInputs backendInputs with
      | nil => exact absurd hs hsorted
      | cons d ds => rfl
  · intro st first rest updateResult
    constructor
    · rw [load_cons_order]
      exact activeColumns_keys first
    · rfl

theorem mismatching_backend_names_leave_no_columns_witness :
    (loadInitialDataAndHeaders initialState
        (FetchResult.ok ([("id", Value.num 1), ("name", Value.str "X")]
          :: [[("id", Value.num 2), ("name", Value.str "Y")]]))
        (FetchResult.ok mismatchInputs) (FetchResult.ok ())).1.currentColumnOrder = []
    ∧ (loadInitialDataAndHeaders initialState
        (FetchResult.ok ([("id", Value.num 1), ("name", Value.str "X")]
          :: [[("id", Value.num 2), ("name", Value.str "Y")]]))
        (FetchResult.ok mismatchInputs) (FetchResult.ok ())).2 = [] :=
  mismatching_backend_names_leave_no_columns.1 initialState
    [("id", Value.num 1), ("name", Value.str "X")]
    [[("id", Value.num 2), ("name", Value.str "Y")]] mismatchInputs (FetchResult.ok ())
    (by decide) (by decide)

/-- C10, the claim as stated, fails on its own example: with the backend
descriptors `Name` (rank 1) and `ID` (rank 0) and the row keys `id`, `name`,
`currentColumnOrder` ends up empty instead of `[id, name]`, and no
bulk-initialize request is issued. -/
theorem mismatch_scenario_counterexample :
    (loadInitialDataAndHeaders initialState (FetchResult.ok scenarioRows)
        (FetchResult.ok mismatchInputs) (FetchResult.ok ())).1.currentColumnOrder
      ≠ ["id", "name"]
    ∧ Effect.postBulkInputs (inferredInputs ["id", "name"])
        ∉ (loadInitialDataAndHeaders initialState (FetchResult.ok scenarioRows)
            (FetchResult.ok mismatchInputs) (FetchResult.ok ())).2
    ∧ (loadInitialDataAndHeaders initialState (FetchResult.ok scenarioRows)
        (FetchResult.ok mismatchInputs) (FetchResult.ok ())).2 = [] := by
  refine ⟨by decide, by decide, by decide⟩

/-! ## Which columns the reconciled order holds -/

theorem mem_activeColumns (first : Row) (order : List String) (k : String) :
    k ∈ activeColumns first order ↔ k ∈ order ∧ k ∈ objectKeys first := by
  unfold activeColumns
  rw [List.mem_filter]
  simp

theorem requestedOrder_ok_of_ne_nil (backendInputs : List ColumnDescriptor) (first : Row)
    (h : backendInputs ≠ []) :
    requestedOrder (FetchResult.ok backendInputs) first
      = (sortInputs backendInputs).map (fun input => input.name) := by
  simp only [requestedOrder]
  cases hs : sortInputs backendInputs with
  | nil => exact absurd ((sortInputs_eq_nil_iff _).mp hs) h
  | cons d ds => rfl

theorem mem_sortInputs_names (backendInputs : List ColumnDescriptor) (k : String) :
    k ∈ (sortInputs backendInputs).map (fun input => input.name)
      ↔ k ∈ backendInputs.map (fun input => input.name) :=
  ((sortInputs_perm backendInputs).map _).mem_iff

/-- C11 (as the code behaves): for every non-empty row set, after
reconciliation the names in `currentColumnOrder` are exactly the first-row keys
that occur among the backend names when the backend returns a non-empty
descriptor list: names not present in row 1 are dropped, and first-row keys
missing from the backend list are not appended.  The order holds exactly the
key set of the first row when the backend returns no descriptor or the fetch
fails.  With the backend knowing only `id` and the row keys `id`, `name`, the
order is `[id]`. -/
theorem columnOrder_holds_backend_names_among_keys :
    (∀ (st : State) (first : Row) (rest : List Row) (backendInputs : List ColumnDescriptor)
        (updateResult : FetchResult Unit) (k : String),
      backendInputs ≠ [] →
      (k ∈ (loadInitialDataAndHeaders st (FetchResult.ok (first :: rest))
            (FetchResult.ok backendInputs) updateResult).1.currentColumnOrder
        ↔ k ∈ objectKeys first ∧ k ∈ backendInputs.map (fun input => input.name)))
    ∧ (∀ (st : State) (first : Row) (rest : List Row) (updateResult : FetchResult Unit)
        (k : String),
      k ∈ (loadInitialDataAndHeaders st (FetchResult.ok (first :: rest)) (FetchResult.ok [])
            updateResult).1.currentColumnOrder ↔ k ∈ objectKeys first)
    ∧ (∀ (st : State) (first : Row) (rest : List Row) (message : String)
        (updateResult : FetchResult Unit) (k : String),
      k ∈ (loadInitialDataAndHeaders st (FetchResult.ok (first :: rest))
            (FetchResult.error message) updateResult).1.currentColumnOrder ↔ k ∈ objectKeys first)
    ∧ (loadInitialDataAndHeaders initialState (FetchResult.ok scenarioRows)
        (FetchResult.ok idOnlyInputs) (FetchResult.ok ())).1.currentColumnOrder = ["id"] := by
  refine ⟨?_, ?_, ?_, by decide⟩
  · intro st first rest backendInputs updateResult k hne
    rw [load_cons_order, mem_activeColumns, requestedOrder_ok_of_ne_nil _ _ hne,
      mem_sortInputs_names]
    exact And.comm
  · intro st first rest updateResult k
    rw [load_cons_order]
    show k ∈ activeColumns first (objectKeys first) ↔ _
    rw [activeColumns_keys]
  · intro st first rest message updateResult k
    rw [load_cons_order]
    show k ∈ activeColumns first (objectKeys first) ↔ _
    rw [activeColumns_keys]

theorem columnOrder_holds_backend_names_among_keys_witness :
    ("name" ∈ (loadInitialDataAndHeaders initialState
          (FetchResult.ok ([("id", Value.num 1), ("name", Value.str "X")] :: []))
          (FetchResult.ok idOnlyInputs) (FetchResult.ok ())).1.currentColumnOrder
      ↔ "name" ∈ objectKeys [("id", Value.num 1), ("name", Value.str "X")]
        ∧ "name" ∈ idOnlyInputs.map (fun input => input.name)) :=
  columnOrder_holds_backend_names_among_keys.1 initialState
    [("id", Value.num 1), ("name", Value.str "X")] [] idOnlyInputs (FetchResult.ok ()) "name"
    (by decide)

/-- C11, the claim as stated, fails when the backend list misses a first-row
key: with the backend knowing only `id` and the row keys `id`, `name`, the key
`name` is in the first row but not in `currentColumnOrder` after
reconciliation. -/
theorem missing_key_not_appended_counterexample :
    "name" ∈ objectKeys [("id", Value.num 1), ("name", Value.str "X")]
    ∧ "name" ∉ (loadInitialDataAndHeaders initialState (FetchResult.ok scenarioRows)
        (FetchResult.ok idOnlyInputs) (FetchResult.ok ())).1.currentColumnOrder
    ∧ (loadInitialDataAndHeaders initialState (FetchResult.ok scenarioRows)
        (FetchResult.ok idOnlyInputs) (FetchResult.ok ())).1.currentColumnOrder = ["id"] := by
  refine ⟨by decide, by decide, by decide⟩

/-! ## The sort of the backend descriptors -/

theorem compareChangeOrder_le_iff (a b : ColumnDescriptor) :
    compareChangeOrder a b ≤ 0 ↔ rankLe a.change_order b.change_order := by
  unfold compareChangeOrder rankLe
  cases a.change_order <;> cases b.change_order <;> simp

theorem rankLe_total (a b : Option Int) : rankLe a b ∨ rankLe b a := by
  unfold rankLe
  cases a <;> cases b <;> simp [Int.le_total]

theorem rankLe_trans (a b c : Option Int) (hab : rankLe a b) (hbc : rankLe b c) : rankLe a c := by
  unfold rankLe at *
  cases a <;> cases b <;> cases c <;> simp at *
  omega

theorem mem_sortedInsert (a x : ColumnDescriptor) (l : List ColumnDescriptor) :
    x ∈ sortedInsert a l ↔ x = a ∨ x ∈ l := by
  rw [(sortedInsert_perm a l).mem_iff, List.mem_cons]

theorem sortedInsert_pairwise (a : ColumnDescriptor) (l : List ColumnDescriptor)
    (h : l.Pairwise (fun x y => rankLe x.change_order y.change_order)) :
    (sortedInsert a l).Pairwise (fun x y => rankLe x.change_order y.change_order) := by
  induction l with
  | nil => exact List.pairwise_singleton _ _
  | cons b rest ih =>
    obtain ⟨hb, hrest⟩ := List.pairwise_cons.mp h
    unfold sortedInsert
    split
    · rename_i hle
      have hab := (compareChangeOrder_le_iff a b).mp hle
      refine List.pairwise_cons.mpr ⟨?_, h⟩
      intro y hy
      rcases List.mem_cons.mp hy with rfl | hy
      · exact hab
      · exact rankLe_trans _ _ _ hab (hb y hy)
    · rename_i hgt
      have hba : rankLe b.change_order a.change_order := by
        rcases rankLe_total a.change_order b.change_order with h1 | h1
        · exact absurd ((compareChangeOrder_le_iff a b).mpr h1) hgt
        · exact h1
      refine List.pairwise_cons.mpr ⟨?_, ih hrest⟩
      intro y hy
      rcases (mem_sortedInsert a y rest).mp hy with rfl | hy
      · exact hba
      · exact hb y hy

theorem sortInputs_pairwise (l : List ColumnDescriptor) :
    (sortInputs l).Pairwise (fun x y => rankLe x.change_order y.change_order) := by
  induction l with
  | nil => exact List.Pairwise.nil
  | cons a rest ih => exact sortedInsert_pairwise a _ ih

theorem filter_rank_sortedInsert (a : ColumnDescriptor) (l : List ColumnDescriptor)
    (r : Option Int) :
    (sortedInsert a l).filter (fun d => d.change_order = r)
      = (a :: l).filter (fun d => d.change_order = r) := by
  induction l with
  | nil => rfl
  | cons b rest ih =>
    unfold sortedInsert
    split
    · rfl
    · rename_i hgt
      have hne : a.change_order ≠ b.change_order := by
        intro heq
        apply hgt
        rw [compareChangeOrder_le_iff, heq]
        rcases rankLe_total b.change_order b.change_order with h1 | h1 <;> exact h1
      rw [List.filter_cons, ih]
      by_cases ha : a.change_order = r
      · have hb : b.change_order ≠ r := fun hb => hne (ha.trans hb.symm)
        simp [List.filter_cons, ha, hb]
      · simp [List.filter_cons, ha]

theorem filter_rank_sortInputs (l : List ColumnDescriptor) (r : Option Int) :
    (sortInputs l).filter (fun d => d.change_order = r)
      = l.filter (fun d => d.change_order = r) := by
  induction l with
  | nil => rfl
  | cons a rest ih =>
    show (sortedInsert a (sortInputs rest)).filter _ = _
    rw [filter_rank_sortedInsert, List.filter_cons, List.filter_cons, ih]

/-- C12: for every backend descriptor list the candidate order that
reconciliation computes is the list of descriptor names of `sortInputs`, and
`sortInputs` is the stable ascending sort by `change_order`: it permutes the
list, its ranks ascend with a null or absent `change_order` after every integer
rank, and the descriptors of each rank (the absent rank included) keep their
input order.  That candidate order is `currentColumnOrder` when there are no
rows, and is what `populateTable` filters when there are rows and the list is
non-empty. -/
theorem candidate_order_is_stable_sort_by_change_order :
    (∀ backendInputs : List ColumnDescriptor,
      (sortInputs backendInputs).Perm backendInputs
      ∧ (sortInputs backendInputs).Pairwise (fun x y => rankLe x.change_order y.change_order)
      ∧ (∀ r : Option Int,
          (sortInputs backendInputs).filter (fun d => d.change_order = r)
            = backendInputs.filter (fun d => d.change_order = r)))
    ∧ (∀ (st : State) (backendInputs : List ColumnDescriptor) (updateResult : FetchResult Unit),
      (loadInitialDataAndHeaders st (FetchResult.ok []) (FetchResult.ok backendInputs)
          updateResult).1.currentColumnOrder
        = (sortInputs backendInputs).map (fun input => input.name))
    ∧ (∀ (st : State) (first : Row) (rest : List Row) (backendInputs : List ColumnDescriptor)
        (updateResult : FetchResult Unit),
      backendInputs ≠ [] →
      (loadInitialDataAndHeaders st (FetchResult.ok (first :: rest)) (FetchResult.ok backendInputs)
          updateResult).1.currentColumnOrder
        = activeColumns first ((sortInputs backendInputs).map (fun input => input.name)))
    ∧ (sortInputs mixedRankInputs).map (fun input => input.name) = ["f", "d", "b", "e", "a", "c"] := by
  refine ⟨?_, ?_, ?_, by decide⟩
  · intro backendInputs
    exact ⟨sortInputs_perm _, sortInputs_pairwise _, filter_rank_sortInputs _⟩
  · intro st backendInputs updateResult
    rw [load_nil_order]
  · intro st first rest backendInputs updateResult hne
    rw [load_cons_order, requestedOrder_ok_of_ne_nil _ _ hne]

theorem candidate_order_is_stable_sort_by_change_order_witness :
    (loadInitialDataAndHeaders initialState
        (FetchResult.ok ([("id", Value.num 1), ("name", Value.str "X")] :: []))
        (FetchResult.ok idOnlyInputs) (FetchResult.ok ())).1.currentColumnOrder
      = activeColumns [("id", Value.num 1), ("name", Value.str "X")]
          ((sortInputs idOnlyInputs).map (fun input => input.name)) :=
  candidate_order_is_stable_sort_by_change_order.2.2.1 initialState
    [("id", Value.num 1), ("name", Value.str "X")] [] idOnlyInputs (FetchResult.ok ()) (by decide)

/-! ## Saving and reloading -/

theorem inputsToUpdate_names (st : State) :
    (inputsToUpdate st).map (fun input => input.name)
      = st.currentColumnOrder.map (displayName st.headerMap) := by
  unfold inputsToUpdate
  rw [List.map_map]
  have h : ((fun input : ColumnDescriptor => input.name) ∘ fun p : Nat × String =>
      ({ name := displayName st.headerMap p.2, column := none,
         change_order := some (p.1 : Int) } : ColumnDescriptor))
      = displayName st.headerMap ∘ Prod.snd := rfl
  rw [h, ← List.map_map, List.enum_map_snd]

theorem inputsToUpdate_eq_nil_iff (st : State) :
    inputsToUpdate st = [] ↔ st.currentColumnOrder = [] := by
  unfold inputsToUpdate
  rw [List.map_eq_nil_iff, List.enum_eq_nil]

theorem enumFrom_pairwise_lt {α : Type} (l : List α) (n : Nat) :
    (List.enumFrom n l).Pairwise (fun p q => p.1 < q.1) := by
  induction l generalizing n with
  | nil => exact List.Pairwise.nil
  | cons a rest ih =>
    refine List.pairwise_cons.mpr ⟨?_, ih (n + 1)⟩
    intro q hq
    exact Nat.lt_of_succ_le (List.le_fst_of_mem_enumFrom hq)

theorem inputsToUpdate_sorted (st : State) :
    (inputsToUpdate st).Pairwise (fun x y => compareChangeOrder x y ≤ 0) := by
  unfold inputsToUpdate
  rw [List.pairwise_map]
  refine List.Pairwise.imp ?_ (enumFrom_pairwise_lt st.currentColumnOrder 0)
  intro p q hpq
  show (p.1 : Int) - (q.1 : Int) ≤ 0
  omega

theorem sortInputs_eq_self_of_sorted (l : List ColumnDescriptor)
    (h : l.Pairwise (fun x y => compareChangeOrder x y ≤ 0)) : sortInputs l = l := by
  induction l with
  | nil => rfl
  | cons a rest ih =>
    obtain ⟨ha, hrest⟩ := List.pairwise_cons.mp h
    show sortedInsert a (sortInputs rest) = a :: rest
    rw [ih hrest]
    cases rest with
    | nil => rfl
    | cons b r =>
      unfold sortedInsert
      rw [if_pos (ha b (List.mem_cons_self _ _))]

theorem save_reload_order (st : State) (first : Row) (rest : List Row)
    (updateResult : FetchResult Unit) (hne : st.currentColumnOrder ≠ []) :
    (updateBackendInputs st (FetchResult.ok ()) (FetchResult.ok (first :: rest))
        (FetchResult.ok (inputsToUpdate st)) updateResult).1.currentColumnOrder
      = activeColumns first (st.currentColumnOrder.map (displayName st.headerMap)) := by
  show (loadInitialDataAndHeaders st (FetchResult.ok (first :: rest))
      (FetchResult.ok (inputsToUpdate st)) updateResult).1.currentColumnOrder = _
  have hne2 : inputsToUpdate st ≠ [] := fun h => hne ((inputsToUpdate_eq_nil_iff st).mp h)
  rw [load_cons_order, requestedOrder_ok_of_ne_nil _ _ hne2,
    sortInputs_eq_self_of_sorted _ (inputsToUpdate_sorted st), inputsToUpdate_names]

/-- C13: evaluation of the code on the failing input.  After the column `id`
of the loaded rows `{id:1,name:"X"}`, `{id:2,name:"Y"}` is renamed to
"Product ID", the save submits the descriptors `Product ID` (rank 0) and `name`
(rank 1); the reload against a backend that stored exactly these leaves
`currentColumnOrder = [name]`: the renamed column `id` is no longer displayed
and no header shows "Product ID". -/
theorem renamed_column_lost_after_save :
    renamedState.currentColumnOrder = ["id", "name"]
    ∧ renamedState.headerMap = [("id", "Product ID"), ("name", "name")]
    ∧ inputsToUpdate renamedState
        = [{ name := "Product ID", column := none, change_order := some 0 },
           { name := "name", column := none, change_order := some 1 }]
    ∧ savedState.currentColumnOrder = ["name"]
    ∧ savedState.headerRow.map (fun th => th.value) = ["name"]
    ∧ savedState.tableBody = TableBody.rows [["X"], ["Y"]] := by
  refine ⟨by decide, by decide, by decide, by decide, by decide, by decide⟩

/-- A rename to a display name that is not a key of the first row loses the
column on the next save and reload, when no other column is displayed under
the name of the renamed one. -/
theorem renamed_column_dropped_by_reload (st : State) (first : Row) (rest : List Row)
    (updateResult : FetchResult Unit) (k d : String)
    (hk : k ∈ st.currentColumnOrder) (hd : displayName st.headerMap k = d)
    (hkey : d ∉ objectKeys first)
    (hothers : ∀ c ∈ st.currentColumnOrder, c ≠ k → displayName st.headerMap c ≠ k) :
    k ∉ (updateBackendInputs st (FetchResult.ok ()) (FetchResult.ok (first :: rest))
        (FetchResult.ok (inputsToUpdate st)) updateResult).1.currentColumnOrder := by
  have hne : st.currentColumnOrder ≠ [] := List.ne_nil_of_mem hk
  rw [save_reload_order st first rest updateResult hne, mem_activeColumns]
  rintro ⟨hmem, hkkey⟩
  obtain ⟨c, hc, hck⟩ := List.mem_map.mp hmem
  by_cases hcK : c = k
  · subst hcK
    rw [hd] at hck
    rw [hck] at hkey
    exact hkey hkkey
  · exact hothers c hc hcK hck

/-! ## Duplicate names -/

theorem requestedOrder_nodup (inputsResult : FetchResult (List ColumnDescriptor)) (first : Row)
    (hkeys : (objectKeys first).Nodup)
    (hnames : ∀ b, inputsResult = FetchResult.ok b → (b.map (fun input => input.name)).Nodup) :
    (requestedOrder inputsResult first).Nodup := by
  cases inputsResult with
  | error message => exact hkeys
  | ok b =>
    have hn : ((sortInputs b).map (fun input => input.name)).Nodup :=
      (((sortInputs_perm b).map _).nodup_iff).mpr (hnames b rfl)
    simp only [requestedOrder]
    cases hs : sortInputs b with
    | nil => exact hkeys
    | cons d ds =>
      rw [hs] at hn
      exact hn

/-- C14 (as the code behaves): `currentColumnOrder` after reconciliation and
rendering contains each column name at most once when the backend descriptor
list names each column at most once (the code itself removes no repeated
name); the keys of a row are pairwise different.  It also holds when the
backend fetch fails, and, without rows, for the sorted backend names.  A
backend list that names `id` twice gives the order `[id, id]`. -/
theorem columnOrder_nodup_of_backend_names_nodup :
    (∀ (st : State) (first : Row) (rest : List Row) (backendInputs : List ColumnDescriptor)
        (updateResult : FetchResult Unit),
      (objectKeys first).Nodup → (backendInputs.map (fun input => input.name)).Nodup →
      (loadInitialDataAndHeaders st (FetchResult.ok (first :: rest)) (FetchResult.ok backendInputs)
          updateResult).1.currentColumnOrder.Nodup)
    ∧ (∀ (st : State) (first : Row) (rest : List Row) (message : String)
        (updateResult : FetchResult Unit),
      (objectKeys first).Nodup →
      (loadInitialDataAndHeaders st (FetchResult.ok (first :: rest)) (FetchResult.error message)
          updateResult).1.currentColumnOrder.Nodup)
    ∧ (∀ (st : State) (backendInputs : List ColumnDescriptor) (updateResult : FetchResult Unit),
      (backendInputs.map (fun input => input.name)).Nodup →
      (loadInitialDataAndHeaders st (FetchResult.ok []) (FetchResult.ok backendInputs)
          updateResult).1.currentColumnOrder.Nodup)
    ∧ (loadInitialDataAndHeaders initialState (FetchResult.ok scenarioRows)
        (FetchResult.ok duplicateInputs) (FetchResult.ok ())).1.currentColumnOrder = ["id", "id"] := by
  refine ⟨?_, ?_, ?_, by decide⟩
  · intro st first rest backendInputs updateResult hkeys hnames
    rw [load_cons_order]
    apply List.Nodup.filter
    apply requestedOrder_nodup _ _ hkeys
    intro b hb
    cases hb
    exact hnames
  · intro st first rest message updateResult hkeys
    rw [load_cons_order]
    apply List.Nodup.filter
    exact requestedOrder_nodup _ _ hkeys (fun b hb => by cases hb)
  · intro st backendInputs updateResult hnames
    rw [load_nil_order]
    exact (((sortInputs_perm backendInputs).map _).nodup_iff).mpr hnames

theorem columnOrder_nodup_of_backend_names_nodup_witness :
    (loadInitialDataAndHeaders initialState
        (FetchResult.ok ([("id", Value.num 1), ("name", Value.str "X")] :: []))
        (FetchResult.ok idOnlyInputs) (FetchResult.ok ())).1.currentColumnOrder.Nodup :=
  columnOrder_nodup_of_backend_names_nodup.1 initialState
    [("id", Value.num 1), ("name", Value.str "X")] [] idOnlyInputs (FetchResult.ok ())
    (by decide) (by decide)

/-- C14, the claim as stated, fails for a backend list that repeats a name:
with two descriptors named `id` against the row keys `id`, `name`, the order
after reconciliation and rendering is `[id, id]`. -/
theorem repeated_backend_name_counterexample :
    ¬ (loadInitialDataAndHeaders initialState (FetchResult.ok scenarioRows)
        (FetchResult.ok duplicateInputs) (FetchResult.ok ())).1.currentColumnOrder.Nodup := by
  decide

/-! ## What a reorder preserves -/

theorem handleDragOver_headerMap (st : State) (target : Option Nat) :
    (handleDragOver st target).headerMap = st.headerMap := by
  unfold handleDragOver
  split
  · split <;> rfl
  · rfl

theorem drag_positions_split {α : Type} (row : List α) (i j : Nat) (d t : α)
    (hi : row[i]? = some d) (hj : row[j]? = some t) (hij : i ≠ j) :
    (∃ A B C, row = A ++ d :: (B ++ t :: C) ∧ A.length = i ∧ A.length + 1 + B.length = j)
    ∨ (∃ A B C, row = A ++ t :: (B ++ d :: C) ∧ A.length = j ∧ A.length + 1 + B.length = i) := by
  rcases Nat.lt_or_gt_of_ne hij with hlt | hgt
  · left
    obtain ⟨A, R, hrow, hA⟩ := split_at_index _ i d hi
    have hj2 : R[j - i - 1]? = some t := by
      rw [hrow, List.getElem?_append_right (by omega)] at hj
      have hji : j - A.length = (j - i - 1) + 1 := by omega
      rw [hji] at hj
      simpa using hj
    obtain ⟨B, C, hR, hB⟩ := split_at_index _ _ t hj2
    subst hR
    exact ⟨A, B, C, hrow, hA, by omega⟩
  · right
    obtain ⟨A, R, hrow, hA⟩ := split_at_index _ j t hj
    have hi2 : R[i - j - 1]? = some d := by
      rw [hrow, List.getElem?_append_right (by omega)] at hi
      have hij2 : i - A.length = (i - j - 1) + 1 := by omega
      rw [hij2] at hi
      simpa using hi
    obtain ⟨B, C, hR, hB⟩ := split_at_index _ _ d hi2
    subst hR
    exact ⟨A, B, C, hrow, hA, by omega⟩

theorem move_right_facts {α : Type} (A B C : List α) (s t : α) :
    (A ++ (B ++ t :: s :: C)).Perm (A ++ s :: (B ++ t :: C))
    ∧ (A ++ (B ++ t :: s :: C))[A.length + 1 + B.length]? = some s
    ∧ (A ++ (B ++ t :: s :: C)).eraseIdx (A.length + 1 + B.length)
        = (A ++ s :: (B ++ t :: C)).eraseIdx A.length := by
  have hnew : A ++ (B ++ t :: s :: C) = (A ++ (B ++ [t])) ++ s :: C := by simp
  have hlen : A.length + 1 + B.length = (A ++ (B ++ [t])).length := by
    simp only [List.length_append, List.length_cons, List.length_nil]; omega
  refine ⟨?_, ?_, ?_⟩
  · apply List.Perm.append_left
    have h1 : B ++ t :: s :: C = (B ++ [t]) ++ s :: C := by simp
    have h2 : s :: (B ++ t :: C) = s :: ((B ++ [t]) ++ C) := by simp
    rw [h1, h2]
    exact List.perm_middle
  · rw [hnew, hlen, getElem?_at]
  · rw [hnew, hlen, eraseIdx_at, eraseIdx_at]
    simp

theorem move_left_facts {α : Type} (A B C : List α) (s t : α) :
    (A ++ s :: t :: (B ++ C)).Perm (A ++ t :: (B ++ s :: C))
    ∧ (A ++ s :: t :: (B ++ C))[A.length]? = some s
    ∧ (A ++ s :: t :: (B ++ C)).eraseIdx A.length
        = (A ++ t :: (B ++ s :: C)).eraseIdx (A.length + 1 + B.length) := by
  have hold : A ++ t :: (B ++ s :: C) = (A ++ t :: B) ++ s :: C := by simp
  have hlen : A.length + 1 + B.length = (A ++ t :: B).length := by
    simp only [List.length_append, List.length_cons]; omega
  refine ⟨?_, getElem?_at _ _ _, ?_⟩
  · apply List.Perm.append_left
    have h1 : t :: (B ++ s :: C) = (t :: B) ++ s :: C := by simp
    have h2 : s :: t :: (B ++ C) = s :: ((t :: B) ++ C) := by simp
    rw [h1, h2]
    exact List.perm_middle.symm
  · rw [eraseIdx_at, hold, hlen, eraseIdx_at]
    simp

/-- While the dragged header cell is still the cell at position `i` of the
header row: for every duplicate-free column order shown by a header row of
pairwise different cells, and distinct positions `i` (the dragged source) and
`j` (the target), the order after the `dragOver` is a permutation of the old
order (same elements, same length, still duplicate-free), the source column is
at index `j`, the index the target had before the move, the other columns keep
their relative order, and `headerMap` is unchanged. -/
theorem dragOver_permutes_and_places_source (st : State) (i j : Nat) (d t drag : Th)
    (hsync : st.headerRow.map (fun th => th.originalName) = st.currentColumnOrder)
    (hids : (st.headerRow.map (fun th => th.nodeId)).Nodup)
    (hnodup : st.currentColumnOrder.Nodup)
    (hi : st.headerRow[i]? = some d) (hj : st.headerRow[j]? = some t) (hij : i ≠ j)
    (hdrag : st.dragTargetTh = some drag) (hd : drag.nodeId = d.nodeId) :
    (handleDragOver st (some t.nodeId)).currentColumnOrder.Perm st.currentColumnOrder
    ∧ (handleDragOver st (some t.nodeId)).currentColumnOrder.length
        = st.currentColumnOrder.length
    ∧ (handleDragOver st (some t.nodeId)).currentColumnOrder.Nodup
    ∧ (handleDragOver st (some t.nodeId)).currentColumnOrder[j]? = st.currentColumnOrder[i]?
    ∧ st.currentColumnOrder[i]? = some d.originalName
    ∧ (handleDragOver st (some t.nodeId)).currentColumnOrder.eraseIdx j
        = st.currentColumnOrder.eraseIdx i
    ∧ (handleDragOver st (some t.nodeId)).headerMap = st.headerMap := by
  have hsource : st.currentColumnOrder[i]? = some d.originalName := by
    rw [← hsync, List.getElem?_map, hi]
    rfl
  have key : (handleDragOver st (some t.nodeId)).currentColumnOrder.Perm st.currentColumnOrder
      ∧ (handleDragOver st (some t.nodeId)).currentColumnOrder[j]? = some d.originalName
      ∧ (handleDragOver st (some t.nodeId)).currentColumnOrder.eraseIdx j
          = st.currentColumnOrder.eraseIdx i := by
    rcases drag_positions_split st.headerRow i j d t hi hj hij with
      ⟨A, B, C, hrow, hA, hB⟩ | ⟨A, B, C, hrow, hA, hB⟩
    · have hfacts := move_right_facts (A.map (fun th => th.originalName))
        (B.map (fun th => th.originalName)) (C.map (fun th => th.originalName))
        d.originalName t.originalName
      rw [dragOver_rightward st A B C d t drag hrow hids hdrag hd, ← hsync, hrow]
      simp only [List.map_append, List.map_cons]
      simp only [List.length_map] at hfacts
      rw [hB, hA] at hfacts
      exact hfacts
    · have hfacts := move_left_facts (A.map (fun th => th.originalName))
        (B.map (fun th => th.originalName)) (C.map (fun th => th.originalName))
        d.originalName t.originalName
      rw [dragOver_leftward st A B C d t drag hrow hids hdrag hd, ← hsync, hrow]
      simp only [List.map_append, List.map_cons]
      simp only [List.length_map] at hfacts
      rw [hB, hA] at hfacts
      exact hfacts
  obtain ⟨hperm, hat, herase⟩ := key
  exact ⟨hperm, hperm.length_eq, hperm.nodup_iff.mpr hnodup, hat.trans hsource.symm, hsource,
    herase, handleDragOver_headerMap st _⟩

theorem dragOver_permutes_and_places_source_witness :
    (handleDragOver (handleDragStart abcdState (some 3)) (some 1)).currentColumnOrder
        = ["a", "d", "b", "c"]
    ∧ (handleDragOver (handleDragStart abcdState (some 3)) (some 1)).currentColumnOrder[1]?
        = (handleDragStart abcdState (some 3)).currentColumnOrder[3]? :=
  ⟨by decide,
    (dragOver_permutes_and_places_source (handleDragStart abcdState (some 3)) 3 1
      ⟨3, "d", 3, "d", true⟩ ⟨1, "b", 1, "b", true⟩ ⟨3, "d", 3, "d", true⟩
      (by decide) (by decide) (by decide) (by decide) (by decide) (by decide) (by decide)
      (by decide)).2.2.2.1⟩

/-- C16: evaluation of the code on the failing input.  With the drag of the
header cell `a` started and the table rendered again before the next
`dragover`, the duplicate-free order `[a, b, c, d]` becomes `[a, b, a, c, d]`
by a `dragOver` onto `b`: one element more, `a` twice, not a permutation of the
old order, and the source column `a` is also still at index 0 instead of only
at the target's index 1. -/
theorem stale_drag_is_no_permutation :
    Reachable staleDragState
    ∧ staleDragState.currentColumnOrder = ["a", "b", "c", "d"]
    ∧ staleDragState.currentColumnOrder.Nodup
    ∧ (handleDragOver staleDragState (some 5)).currentColumnOrder = ["a", "b", "a", "c", "d"]
    ∧ ¬ (handleDragOver staleDragState (some 5)).currentColumnOrder.Perm
        staleDragState.currentColumnOrder
    ∧ (handleDragOver staleDragState (some 5)).currentColumnOrder.length
        ≠ staleDragState.currentColumnOrder.length
    ∧ ¬ (handleDragOver staleDragState (some 5)).currentColumnOrder.Nodup
    ∧ (handleDragOver staleDragState (some 5)).currentColumnOrder[0]? = some "a" := by
  refine ⟨?_, by decide, by decide, by decide, by decide, by decide, by decide, by decide⟩
  exact Reachable.pageSize _ 25 (Reachable.dragStart _ (some 0)
    (Reachable.load _ abcdRows (FetchResult.error "Failed to fetch") (FetchResult.ok ())
      (Reachable.start 10)))

/-! ## Save and reload without renames -/

theorem map_displayName_identity (m : HeaderMap) (order : List String)
    (h : ∀ k ∈ order, mapGet m k = some k) : order.map (displayName m) = order := by
  have hmap : ∀ k ∈ order, displayName m k = k := by
    intro k hk
    unfold displayName
    rw [h k hk]
    by_cases hk0 : k = ""
    · simp [hk0]
    · simp [hk0]
  calc order.map (displayName m) = order.map id := List.map_congr_left hmap
    _ = order := List.map_id order

theorem activeColumns_eq_self (first : Row) (order : List String)
    (h : ∀ k ∈ order, k ∈ objectKeys first) : activeColumns first order = order := by
  unfold activeColumns
  apply List.filter_eq_self.mpr
  intro k hk
  simpa using h k hk

/-- C17 (as the code behaves): for every non-empty row set and every state
whose `currentColumnOrder` is a non-empty list of first-row keys with
`headerMap` the identity on those keys, serializing with `updateBackendInputs`
and then reconciling and rendering against a backend that returns exactly the
serialized descriptors yields the same `currentColumnOrder`, in the same order.
When `currentColumnOrder` is empty the serialized list is empty and the reload
infers the order from the first row: it becomes all keys of the first row. -/
theorem save_reload_keeps_nonempty_order :
    (∀ (st : State) (first : Row) (rest : List Row) (updateResult : FetchResult Unit),
      st.currentColumnOrder ≠ [] →
      (∀ k ∈ st.currentColumnOrder, k ∈ objectKeys first) →
      (∀ k ∈ st.currentColumnOrder, mapGet st.headerMap k = some k) →
      (updateBackendInputs st (FetchResult.ok ()) (FetchResult.ok (first :: rest))
          (FetchResult.ok (inputsToUpdate st)) updateResult).1.currentColumnOrder
        = st.currentColumnOrder)
    ∧ (∀ (st : State) (first : Row) (rest : List Row) (updateResult : FetchResult Unit),
      st.currentColumnOrder = [] →
      inputsToUpdate st = []
      ∧ (updateBackendInputs st (FetchResult.ok ()) (FetchResult.ok (first :: rest))
          (FetchResult.ok (inputsToUpdate st)) updateResult).1.currentColumnOrder
        = objectKeys first) := by
  constructor
  · intro st first rest updateResult hne hkeys hid
    rw [save_reload_order st first rest updateResult hne,
      map_displayName_identity _ _ hid, activeColumns_eq_self _ _ hkeys]
  · intro st first rest updateResult hnil
    have hser : inputsToUpdate st = [] := (inputsToUpdate_eq_nil_iff st).mpr hnil
    refine ⟨hser, ?_⟩
    rw [hser]
    show (loadInitialDataAndHeaders st (FetchResult.ok (first :: rest)) (FetchResult.ok [])
      updateResult).1.currentColumnOrder = _
    rw [load_cons_order]
    exact activeColumns_keys first

theorem save_reload_keeps_nonempty_order_witness :
    (updateBackendInputs scenarioState (FetchResult.ok ())
        (FetchResult.ok ([("id", Value.num 1), ("name", Value.str "X")] :: []))
        (FetchResult.ok (inputsToUpdate scenarioState)) (FetchResult.ok ())).1.currentColumnOrder
      = scenarioState.currentColumnOrder :=
  save_reload_keeps_nonempty_order.1 scenarioState [("id", Value.num 1), ("name", Value.str "X")]
    [] (FetchResult.ok ()) (by decide) (by decide) (by decide)

/-- C17, the claim as stated, fails for the empty column order: in the state
reached by loading the rows `{id:1,name:"X"}`, `{id:2,name:"Y"}` against the
backend names `Name`, `ID`, `currentColumnOrder` is empty (a duplicate-free list
of first-row keys); the save submits no descriptor and the reload against that
empty list yields `[id, name]`, not the empty order. -/
theorem empty_order_not_kept_counterexample :
    noColumnState.currentColumnOrder = []
    ∧ inputsToUpdate noColumnState = []
    ∧ (updateBackendInputs noColumnState (FetchResult.ok ()) (FetchResult.ok scenarioRows)
        (FetchResult.ok (inputsToUpdate noColumnState)) (FetchResult.ok ())).1.currentColumnOrder
        = ["id", "name"]
    ∧ (updateBackendInputs noColumnState (FetchResult.ok ()) (FetchResult.ok scenarioRows)
        (FetchResult.ok (inputsToUpdate noColumnState)) (FetchResult.ok ())).1.currentColumnOrder
        ≠ noColumnState.currentColumnOrder := by
  refine ⟨by decide, by decide, by decide, by decide⟩

/-! ## What `populateTable` renders in a reachable state -/

theorem labelsOk_mapSet (m : HeaderMap) (k v : String) (h : labelsOk m)
    (hv : v = "" → k = "") : labelsOk (mapSet m k v) := by
  intro c hc
  rw [mapGet_mapSet] at hc
  by_cases hkc : k = c
  · rw [if_pos hkc] at hc
    rw [← hkc]
    exact hv (Option.some.inj hc)
  · rw [if_neg hkc] at hc
    exact h c hc

theorem labelsOk_setIdentity (m : HeaderMap) (keys : List String) (h : labelsOk m) :
    labelsOk (setIdentity m keys) := by
  intro c hc
  rw [mapGet_setIdentity] at hc
  by_cases hmem : c ∈ keys
  · rw [if_pos hmem] at hc
    exact Option.some.inj hc
  · rw [if_neg hmem] at hc
    exact h c hc

theorem labelsOk_seedFromBackend (m : HeaderMap) (b : List ColumnDescriptor) (h : labelsOk m) :
    labelsOk (seedFromBackend m b) := by
  intro c hc
  rw [mapGet_seedFromBackend] at hc
  by_cases hmem : c ≠ "" ∧ c ∈ b.map (fun d => d.name)
  · rw [if_pos hmem] at hc
    exact Option.some.inj hc
  · rw [if_neg hmem] at hc
    exact h c hc

theorem labelsOk_ensureHeaderMap (m : HeaderMap) (order : List String) (h : labelsOk m) :
    labelsOk (ensureHeaderMap m order) := by
  intro c hc
  rw [mapGet_ensureHeaderMap] at hc
  cases hm : mapGet m c with
  | some v =>
    rw [hm] at hc
    exact h c (hm.trans hc)
  | none =>
    rw [hm] at hc
    by_cases hmem : c ∈ order
    · simp only [if_pos hmem] at hc
      exact Option.some.inj hc
    · simp [hmem] at hc

theorem labelsOk_reconciledMap (m : HeaderMap) (inputsResult : FetchResult (List ColumnDescriptor))
    (data : List Row) (h : labelsOk m) : labelsOk (reconciledMap m inputsResult data) := by
  cases inputsResult with
  | error message =>
    cases data with
    | nil => exact h
    | cons first rest => exact labelsOk_setIdentity _ _ h
  | ok b =>
    cases data with
    | nil => exact labelsOk_seedFromBackend _ _ h
    | cons first rest =>
      exact labelsOk_ensureHeaderMap _ _ (labelsOk_seedFromBackend _ _ h)

theorem displayName_eq_entry (m : HeaderMap) (name : String) (h : labelsOk m) :
    displayName m name = (match mapGet m name with
      | some label => label
      | none => name) := by
  unfold displayName
  cases hm : mapGet m name with
  | none => rfl
  | some v =>
    by_cases hv : v = ""
    · subst hv
      simp only [if_true]
      exact h name hm
    · simp only [if_neg hv]

theorem populateTable_data (st : State) (data : List Row) (columnOrder : Option (List String)) :
    (populateTable st data columnOrder).currentTableData = st.currentTableData := by
  cases data <;> rfl

theorem populateTable_labelsOk (st : State) (data : List Row) (order : List String)
    (h : labelsOk st.headerMap) : labelsOk (populateTable st data (some order)).headerMap := by
  cases data with
  | nil => exact h
  | cons first rest =>
    rw [populateTable_cons_headerMap]
    exact labelsOk_ensureHeaderMap _ _ h

theorem wellFormed_populateTable (st : State) (data : List Row) (order : List String)
    (h : wellFormed st) : wellFormed (populateTable st data (some order)) := by
  obtain ⟨h1, h2, h3⟩ := populateTable_pagination st data (some order)
  refine ⟨populateTable_labelsOk st data order h.1, ?_, ?_⟩
  · rw [h3, populateTable_data]
    exact h.2.1
  · rw [h1]
    exact h.2.2

theorem load_ok_fields (st : State) (data : List Row)
    (inputsResult : FetchResult (List ColumnDescriptor)) (updateResult : FetchResult Unit) :
    (loadInitialDataAndHeaders st (FetchResult.ok data) inputsResult updateResult).1.currentTableData
        = data
    ∧ (loadInitialDataAndHeaders st (FetchResult.ok data) inputsResult updateResult).1.totalRows
        = data.length
    ∧ (loadInitialDataAndHeaders st (FetchResult.ok data) inputsResult updateResult).1.currentPage
        = 1 := by
  cases inputsResult with
  | error message =>
    cases data with
    | nil =>
      exact ⟨populateTable_data _ _ _, (populateTable_pagination _ _ _).2.2,
        (populateTable_pagination _ _ _).1⟩
    | cons first rest =>
      exact ⟨populateTable_data _ _ _, (populateTable_pagination _ _ _).2.2,
        (populateTable_pagination _ _ _).1⟩
  | ok backendInputs =>
    simp only [loadInitialDataAndHeaders]
    split <;>
      exact ⟨populateTable_data _ _ _, (populateTable_pagination _ _ _).2.2,
        (populateTable_pagination _ _ _).1⟩

theorem wellFormed_load (st : State) (dataResult : FetchResult (List Row))
    (inputsResult : FetchResult (List ColumnDescriptor)) (updateResult : FetchResult Unit)
    (h : wellFormed st) :
    wellFormed (loadInitialDataAndHeaders st dataResult inputsResult updateResult).1 := by
  cases dataResult with
  | error message => exact h
  | ok data =>
    obtain ⟨hdata, hrows, hpage⟩ := load_ok_fields st data inputsResult updateResult
    refine ⟨?_, ?_, ?_⟩
    · cases data with
      | nil =>
        rw [load_nil_headerMap]
        exact labelsOk_reconciledMap _ _ _ h.1
      | cons first rest =>
        rw [load_cons_headerMap]
        exact labelsOk_ensureHeaderMap _ _ (labelsOk_reconciledMap _ _ _ h.1)
    · rw [hrows, hdata]
    · rw [hpage]

theorem wellFormed_handleBlur (st : State) (target : Nat) (h : wellFormed st) :
    wellFormed (handleBlur st target).1 := by
  unfold handleBlur
  split
  · exact h
  · rename_i th hfind
    simp only []
    split
    · rename_i hcond
      exact ⟨labelsOk_mapSet _ _ _ h.1 (fun hv => absurd hv hcond.2), h.2.1, h.2.2⟩
    · split <;> exact h

theorem wellFormed_handleDragOver (st : State) (target : Option Nat) (h : wellFormed st) :
    wellFormed (handleDragOver st target) := by
  unfold handleDragOver
  split
  · split
    · exact h
    · exact h
  · exact h

theorem reachable_wellFormed (st : State) (h : Reachable st) : wellFormed st := by
  induction h with
  | start selected =>
    refine ⟨?_, rfl, Nat.le_refl 1⟩
    intro k hk
    simp [initialState, mapGet] at hk
  | load st dataResult inputsResult updateResult _ ih => exact wellFormed_load _ _ _ _ ih
  | save st result dataResult inputsResult updateResult _ ih =>
    cases result with
    | error message => exact ih
    | ok u => exact wellFormed_load _ _ _ _ ih
  | clear st result dataResult inputsResult updateResult _ ih =>
    cases result with
    | error message => exact ih
    | ok u =>
      apply wellFormed_load
      refine ⟨?_, ih.2.1, ih.2.2⟩
      intro k hk
      simp [mapGet] at hk
  | dblClick st target _ ih => exact ih
  | typing st target text _ ih => exact ih
  | blur st target _ ih => exact wellFormed_handleBlur _ _ ih
  | dragStart st target _ ih =>
    unfold handleDragStart
    split
    · exact ih
    · split <;> exact ih
  | dragOver st target _ ih => exact wellFormed_handleDragOver _ _ ih
  | drop st _ ih =>
    unfold handleDrop
    split <;> exact ih
  | dragEnd st _ ih => exact wellFormed_populateTable _ _ _ ih
  | next st _ ih =>
    unfold nextPage
    simp only []
    split
    · apply wellFormed_populateTable
      exact ⟨ih.1, ih.2.1, Nat.le_add_left 1 _⟩
    · exact ih
  | prev st _ ih =>
    unfold prevPage
    split
    · rename_i hgt
      apply wellFormed_populateTable
      refine ⟨ih.1, ih.2.1, ?_⟩
      show 1 ≤ st.currentPage - 1
      omega
    · exact ih
  | pageSize st selected _ ih =>
    apply wellFormed_populateTable
    exact ⟨ih.1, ih.2.1, Nat.le_refl 1⟩

theorem createHeaders_labels (m : HeaderMap) (firstId : Nat) (order : List String) :
    (createHeaders m firstId order).map (fun th => (th.originalName, th.value))
      = order.map (fun name => (name, displayName m name)) := by
  unfold createHeaders
  rw [List.map_map]
  have h : ((fun th : Th => (th.originalName, th.value)) ∘ fun p : Nat × String =>
      ({ nodeId := firstId + p.1, originalName := p.2, columnIndex := p.1,
         value := displayName m p.2, readOnly := true } : Th))
      = (fun name => (name, displayName m name)) ∘ Prod.snd := rfl
  rw [h, ← List.map_map, List.enum_map_snd]

/-- C8: for every header cell and every committed input that is empty after
trimming (the empty string and every all-whitespace string are such inputs),
`handleBlur` leaves `headerMap` unchanged and sets the visible field back to the
column's prior display value: the non-empty `headerMap` entry of the column,
and the column's own name when it has no entry (or an empty one); in every
reachable state that is the `headerMap` entry whenever there is one.  It also
issues the warning.  For the column `id` renamed to "Product ID" the field goes
back to "Product ID", not to `id`. -/
theorem blur_with_blank_input_reverts :
    (∀ (st : State) (target : Nat) (th : Th),
      findTh st.headerRow target = some th → jsTrim th.value = "" →
      (handleBlur st target).1.headerMap = st.headerMap
      ∧ (findTh (handleBlur st target).1.headerRow target).map (fun c => c.value)
          = some (match mapGet st.headerMap th.originalName with
              | some label => if label = "" then th.originalName else label
              | none => th.originalName)
      ∧ (Reachable st →
          (findTh (handleBlur st target).1.headerRow target).map (fun c => c.value)
            = some (match mapGet st.headerMap th.originalName with
                | some label => label
                | none => th.originalName))
      ∧ (handleBlur st target).1.currentColumnOrder = st.currentColumnOrder
      ∧ (handleBlur st target).2
          = [Effect.notification "Column name cannot be empty. Reverted to previous name." "warning"])
    ∧ (∀ s : String, (∀ c ∈ s.data, isTrimChar c = true) → jsTrim s = "")
    ∧ jsTrim "" = ""
    ∧ mapGet blankRenamedState.headerMap "id" = some "Product ID"
    ∧ (findTh blankRenamedState.headerRow 0).map (fun c => (c.originalName, c.value))
        = some ("id", "   ")
    ∧ (findTh (handleBlur blankRenamedState 0).1.headerRow 0).map (fun c => c.value)
        = some "Product ID"
    ∧ (handleBlur blankRenamedState 0).1.headerMap = [("id", "Product ID"), ("name", "name")] := by
  refine ⟨?_, jsTrim_of_all_blank, by decide, by decide, by decide, by decide, by decide⟩
  intro st target th hfind htrim
  have hcond : ¬ (mapGet st.headerMap th.originalName ≠ some (jsTrim th.value)
      ∧ jsTrim th.value ≠ "") := fun h => h.2 htrim
  have hstep : handleBlur st target
      = ({ st with
            headerRow := updateTh st.headerRow target (fun c =>
              { c with readOnly := true, value := displayName st.headerMap th.originalName }) },
          [Effect.notification "Column name cannot be empty. Reverted to previous name." "warning"]) := by
    simp only [handleBlur, hfind]
    rw [if_neg hcond, if_pos htrim]
  have hcell := findTh_updateTh st.headerRow target
    (fun c => { c with readOnly := true, value := displayName st.headerMap th.originalName })
    (fun _ => rfl)
  have hvalue : (findTh (handleBlur st target).1.headerRow target).map (fun c => c.value)
      = some (displayName st.headerMap th.originalName) := by
    rw [hstep]
    show (findTh (updateTh st.headerRow target _) target).map (fun c => c.value) = _
    rw [hcell, hfind]
    rfl
  refine ⟨?_, ?_, ?_, ?_, ?_⟩
  · rw [hstep]
  · rw [hvalue]
    rfl
  · intro hreach
    rw [hvalue, displayName_eq_entry _ _ (reachable_wellFormed st hreach).1]
  · rw [hstep]
  · rw [hstep]

theorem blur_with_blank_input_reverts_witness :
    (handleBlur blankRenamedState 0).1.headerMap = blankRenamedState.headerMap
    ∧ (findTh (handleBlur blankRenamedState 0).1.headerRow 0).map (fun c => c.value)
        = some (match mapGet blankRenamedState.headerMap "id" with
            | some label => if label = "" then "id" else label
            | none => "id") :=
  ⟨(blur_with_blank_input_reverts.1 blankRenamedState 0 ⟨0, "id", 0, "   ", false⟩
      (by decide) (by decide)).1,
    (blur_with_blank_input_reverts.1 blankRenamedState 0 ⟨0, "id", 0, "   ", false⟩
      (by decide) (by decide)).2.1⟩

/-- C15 (as the code behaves): in every state reachable through loads whose
data fetch succeeds, saves, clears, renames, reorders and page changes whose row
set is non-empty, `populateTable` renders one header cell per
`currentColumnOrder` entry whose label is the `headerMap` entry of the name when
there is one and the name otherwise, and one body row per row of the page slice
with exactly one cell per `currentColumnOrder` entry: the cell shows the row's
own value for the name (a string as it is, a number in decimal, `null` as the
empty string), and the empty string when `row[name]` is undefined, that is
when the row has no value of its own for the name and the name is no member of
`Object.prototype`.  When the row set is empty it renders no header cell and
the single message row "No data available.". -/
theorem populateTable_projects_reachable_state :
    (∀ (st : State) (first : Row) (rest : List Row),
      Reachable st → st.currentTableData = first :: rest →
      (populateTable st st.currentTableData (some st.currentColumnOrder)).headerRow.map
          (fun th => (th.originalName, th.value))
        = (populateTable st st.currentTableData (some st.currentColumnOrder)).currentColumnOrder.map
            (fun name => (name,
              match mapGet (populateTable st st.currentTableData
                  (some st.currentColumnOrder)).headerMap name with
              | some label => label
              | none => name))
      ∧ (populateTable st st.currentTableData (some st.currentColumnOrder)).tableBody
        = TableBody.rows ((sliceSpec st.currentTableData st.currentPage st.rowsPerPage).map
            (fun row => (populateTable st st.currentTableData
                (some st.currentColumnOrder)).currentColumnOrder.map (cellText row))))
    ∧ (∀ (row : Row) (name : String),
        (∀ s, rowGet row name = some (Value.str s) → cellText row name = s)
        ∧ (∀ n, rowGet row name = some (Value.num n) → cellText row name = toString n)
        ∧ (rowGet row name = some Value.null → cellText row name = "")
        ∧ (rowGet row name = none → name ∉ objectPrototypeMembers → cellText row name = ""))
    ∧ (∀ st : State, Reachable st → st.currentTableData = [] →
      (populateTable st st.currentTableData (some st.currentColumnOrder)).headerRow = []
      ∧ (populateTable st st.currentTableData (some st.currentColumnOrder)).tableBody
          = TableBody.message "No data available.")
    ∧ (populateTable raggedRenamedState raggedRenamedState.currentTableData
        (some raggedRenamedState.currentColumnOrder)).headerRow.map
          (fun th => (th.originalName, th.value))
        = [("id", "Product ID"), ("name", "name")]
    ∧ (populateTable raggedRenamedState raggedRenamedState.currentTableData
        (some raggedRenamedState.currentColumnOrder)).tableBody
        = TableBody.rows [["1", "X"], ["2", ""]] := by
  refine ⟨?_, ?_, ?_, by decide, by decide⟩
  · intro st first rest hreach hdata
    have hwf := reachable_wellFormed st hreach
    rw [hdata]
    constructor
    · rw [populateTable_cons_headerRow, populateTable_cons_order, populateTable_cons_headerMap,
        createHeaders_labels]
      apply List.map_congr_left
      intro name _
      rw [displayName_eq_entry _ _ (labelsOk_ensureHeaderMap _ _ hwf.1)]
    · rw [populateTable_cons_tableBody, populateTable_cons_order,
        paginatedData_eq_sliceSpec st (first :: rest) hwf.2.2 (by rw [hwf.2.1, hdata])]
      rfl
  · intro row name
    refine ⟨?_, ?_, ?_, ?_⟩
    · intro s hs
      simp only [cellText, hs, textContent]
    · intro n hn
      simp only [cellText, hn, textContent]
    · intro hnull
      simp only [cellText, hnull, textContent]
    · intro hnone hmember
      have hcontains : objectPrototypeMembers.contains name = false := by
        simpa using hmember
      simp only [cellText, hnone, hcontains]
      rfl
  · intro st _ hdata
    rw [hdata]
    exact ⟨rfl, rfl⟩

theorem populateTable_projects_reachable_state_witness :
    (populateTable raggedRenamedState raggedRenamedState.currentTableData
        (some raggedRenamedState.currentColumnOrder)).headerRow.map
          (fun th => (th.originalName, th.value))
      = (populateTable raggedRenamedState raggedRenamedState.currentTableData
          (some raggedRenamedState.currentColumnOrder)).currentColumnOrder.map
            (fun name => (name,
              match mapGet (populateTable raggedRenamedState raggedRenamedState.currentTableData
                  (some raggedRenamedState.currentColumnOrder)).headerMap name with
              | some label => label
              | none => name))
    ∧ (populateTable raggedRenamedState raggedRenamedState.currentTableData
        (some raggedRenamedState.currentColumnOrder)).tableBody
      = TableBody.rows ((sliceSpec raggedRenamedState.currentTableData
            raggedRenamedState.currentPage raggedRenamedState.rowsPerPage).map
          (fun row => (populateTable raggedRenamedState raggedRenamedState.currentTableData
              (some raggedRenamedState.currentColumnOrder)).currentColumnOrder.map
            (cellText row))) :=
  populateTable_projects_reachable_state.1 raggedRenamedState
    [("id", Value.num 1), ("name", Value.str "X")] [[("id", Value.num 2)]]
    (Reachable.blur _ 0 (Reachable.typing _ 0 "Product ID" (Reachable.dblClick _ 0
      (Reachable.load _ raggedRows (FetchResult.error "Failed to fetch")
        (FetchResult.ok ()) (Reachable.start 10)))))
    (by decide)

/-- A row without a value of its own under a name that `Object.prototype`
defines shows the inherited member in its cell, not the empty string: for the
row `{id: 2}` under the column `toString` the cell holds the text of the
function. -/
theorem inherited_member_fills_missing_cell :
    rowGet [("id", Value.num 2)] "toString" = none
    ∧ cellText [("id", Value.num 2)] "toString" = "function toString() \x7b [native code] \x7d"
    ∧ cellText [("id", Value.num 2)] "toString" ≠ "" := by
  refine ⟨by decide, by decide, by decide⟩

/-- C15, the claim as stated, fails in a reachable state without rows: after a
load that returned no row while the backend knows the column `id`,
`currentColumnOrder` is `[id]`, and `populateTable` renders no header cell at
all, only the message row. -/
theorem no_rows_no_headers_counterexample :
    Reachable noRowState
    ∧ (populateTable noRowState noRowState.currentTableData
        (some noRowState.currentColumnOrder)).currentColumnOrder = ["id"]
    ∧ (populateTable noRowState noRowState.currentTableData
        (some noRowState.currentColumnOrder)).headerRow = []
    ∧ (populateTable noRowState noRowState.currentTableData
        (some noRowState.currentColumnOrder)).tableBody = TableBody.message "No data available." :=
  ⟨Reachable.load _ [] (FetchResult.ok idOnlyInputs) (FetchResult.ok ()) (Reachable.start 10),
    by decide, by decide, by decide⟩

end DemoFront
